import Mathlib

/-!
# Timer-Events scheduler: embedding and verified properties

Shallow embedding of `src/TimerEvents.h` and `src/TimerEvents.cpp`.

* A `TimerEvent` object lives in memory and is referred to by its address
  (the scheduler stores `TimerEvent*`).  Memory is a total map from addresses
  to objects.
* `unsigned long` is a natural number and every addition the code performs on
  it is reduced modulo `2 ^ 32` (`unsigned long` and `long` are 32 bits wide on
  the Arduino targets this library is written for).
* The handlers are opaque `std::function<void()>` values.  A call of
  `TimerEvent::execute` or `TimerEvent::finish` is recorded in a call log
  together with the handler it runs (`none` for a null handler); the handlers
  themselves are taken not to touch the scheduler or the events.
* `millis()` is an input: every function that reads the clock takes the
  reading as an argument.
-/

namespace TimerEvents

/-- Capacity of the registry: `#define MAX_NUMBER_OF_EVENTS 32`. -/
def MAX_NUMBER_OF_EVENTS : Nat := 32

/-- Number of values of an `unsigned long` (32 bits). -/
def ULONG_MOD : Nat := 2 ^ 32

/-- Sum of two `unsigned long` values, as the machine computes it. -/
def addUL (a b : Nat) : Nat := (a + b) % ULONG_MOD

/-- Sum `unsigned long + long`: the signed operand is converted to
`unsigned long`, so the result is the integer sum reduced modulo `2 ^ 32`. -/
def addULong (a : Nat) (d : Int) : Nat := (((a : Int) + d) % (ULONG_MOD : Int)).toNat

/-- The class `TimerEvent` of `TimerEvents.h`.  A handler is `none` when the
`std::function` is null and `some h` when it holds the callable `h`. -/
structure TimerEvent where
  name : String
  period : Nat
  onExecutePtr : Option Nat
  onFinishPtr : Option Nat
  isEnabled : Bool
  duration : Int
  firstCalled : Nat
  index : Int
deriving DecidableEq

/-- The six-argument constructor `TimerEvent::TimerEvent`; `firstCalled` and
`index` take their in-class initialisers `0` and `-1`. -/
def TimerEvent.ctor (n : String) (p : Nat) (onExecute : Option Nat) (e : Bool)
    (d : Int) (onFinish : Option Nat) : TimerEvent :=
  { name := n, period := p, onExecutePtr := onExecute, onFinishPtr := onFinish,
    isEnabled := e, duration := d, firstCalled := 0, index := -1 }

/-- The method `TimerEvent::execute`: it runs `onExecutePtr` when that is not
null.  The value is the handler that runs, if any. -/
def TimerEvent.execute (e : TimerEvent) : Option Nat := e.onExecutePtr

/-- The method `TimerEvent::finish`: it runs `onFinishPtr` when that is not
null.  The value is the handler that runs, if any. -/
def TimerEvent.finish (e : TimerEvent) : Option Nat := e.onFinishPtr

/-- The method `TimerEvent::enable`. -/
def TimerEvent.enable (e : TimerEvent) : TimerEvent := { e with isEnabled := true }

/-- The method `TimerEvent::disable`. -/
def TimerEvent.disable (e : TimerEvent) : TimerEvent := { e with isEnabled := false }

/-- The method `TimerEvent::setEventCallback`. -/
def TimerEvent.setEventCallback (e : TimerEvent) (cbPtr : Option Nat) : TimerEvent :=
  { e with onExecutePtr := cbPtr }

/-- The method `TimerEvent::setFinishCallback`. -/
def TimerEvent.setFinishCallback (e : TimerEvent) (cbPtr : Option Nat) : TimerEvent :=
  { e with onFinishPtr := cbPtr }

/-- One entry of the call log: the method `execute()` or `finish()` was called
on the object at address `event` while the dispatcher processed `slot`, and it
ran `handler` (nothing when the handler is null). -/
inductive Call where
  | execute (slot : Nat) (event : Nat) (handler : Option Nat)
  | finish (slot : Nat) (event : Nat) (handler : Option Nat)
deriving DecidableEq

/-- The private state of `TimerEventsClass`.  The three arrays are maps from
the index to the stored value; only indices below `MAX_NUMBER_OF_EVENTS` exist
in the program.  `numberOfEvents` starts at `0` and is only ever incremented,
so it is a natural number. -/
structure TimerEventsClass where
  numberOfEvents : Nat
  events : Nat → Nat
  timeouts : Nat → Nat
  durations : Nat → Nat

/-- The program state: the scheduler instance `timerEvents`, the memory that
holds the `TimerEvent` objects, and the log of handler calls made so far. -/
structure World where
  timerEvents : TimerEventsClass
  mem : Nat → TimerEvent
  calls : List Call

/-- The constructor `TimerEventsClass::TimerEventsClass`: it sets
`numberOfEvents` to `0` and leaves the arrays as they are. -/
def TimerEventsClass.ctor (s : TimerEventsClass) : TimerEventsClass :=
  { s with numberOfEvents := 0 }

/-- The function `TimerEventsClass::add`.  The clock is read twice, once for
`timeouts` (`t₁`) and once for `durations` (`t₂`). -/
def add (t₁ t₂ : Nat) (event : Nat) (w : World) : World :=
  if w.timerEvents.numberOfEvents ≥ MAX_NUMBER_OF_EVENTS then w
  else
    let n := w.timerEvents.numberOfEvents
    { timerEvents :=
        { numberOfEvents := n + 1
          events := Function.update w.timerEvents.events n event
          timeouts := Function.update w.timerEvents.timeouts n t₁
          durations := Function.update w.timerEvents.durations n t₂ }
      mem := Function.update w.mem event { w.mem event with index := (n : Int) }
      calls := w.calls }

/-- The function `TimerEventsClass::update`.  The result is `none` when the
write `events[event->index]` falls outside the array (undefined behaviour). -/
def update (event : Nat) (w : World) : Option World :=
  if (w.mem event).index = -1 then some w
  else if 0 ≤ (w.mem event).index ∧ (w.mem event).index < (MAX_NUMBER_OF_EVENTS : Int) then
    some { w with
      timerEvents := { w.timerEvents with
        events := Function.update w.timerEvents.events (w.mem event).index.toNat event } }
  else none

/-- Lines 38-41 of `TimerEvents.cpp`: the first time a bounded event is seen,
record the time and compute the stop time. -/
def latch (time i : Nat) (w : World) : World :=
  let p := w.timerEvents.events i
  if (w.mem p).firstCalled = 0 then
    { w with
      timerEvents := { w.timerEvents with
        durations := Function.update w.timerEvents.durations i
          (addULong time (w.mem p).duration) }
      mem := Function.update w.mem p { w.mem p with firstCalled := time } }
  else w

/-- Lines 42-46 of `TimerEvents.cpp`: when the stop time has passed, disable
the event, reset `firstCalled` and call `finish()`. -/
def expire (time i : Nat) (w : World) : World :=
  let p := w.timerEvents.events i
  if time ≥ w.timerEvents.durations i then
    { w with
      mem := Function.update w.mem p { (w.mem p).disable with firstCalled := 0 }
      calls := w.calls ++ [Call.finish i p (w.mem p).finish] }
  else w

/-- Lines 49-52 of `TimerEvents.cpp`: when the timeout has passed, set the next
timeout and call `execute()`. -/
def fire (time i : Nat) (w : World) : World :=
  let p := w.timerEvents.events i
  if time ≥ w.timerEvents.timeouts i then
    { w with
      timerEvents := { w.timerEvents with
        timeouts := Function.update w.timerEvents.timeouts i (addUL time (w.mem p).period) }
      calls := w.calls ++ [Call.execute i p (w.mem p).execute] }
  else w

/-- The body of the loop of `TimerEventsClass::tasks` for slot `i`. -/
def tasksSlot (time i : Nat) (w : World) : World :=
  let p := w.timerEvents.events i
  if (w.mem p).isEnabled = false then w
  else
    fire time i
      (if (w.mem p).duration ≠ -1 then expire time i (latch time i w) else w)

/-- The loop body run over the slots of `l`, in order. -/
def tasksOver (time : Nat) (l : List Nat) (w : World) : World :=
  l.foldl (fun acc i => tasksSlot time i acc) w

/-- The function `TimerEventsClass::tasks`, with `time` the value `millis()`
returns: the loop body for `i = 0, ..., numberOfEvents - 1` (the body never
changes `numberOfEvents`). -/
def tasks (time : Nat) (w : World) : World :=
  tasksOver time (List.range w.timerEvents.numberOfEvents) w

/-- The state in which the loop of `tasks` reaches slot `i`: slots `0 .. i-1`
have been processed. -/
def reached (time i : Nat) (w : World) : World :=
  tasksOver time (List.range i) w

/-- A sequence of polls: `tasks` called once at each clock reading of `ts`. -/
def polls (ts : List Nat) (w : World) : World :=
  ts.foldl (fun acc t => tasks t acc) w

/-- A call of `enable()` on the object at address `p` by the host program. -/
def callEnable (p : Nat) (w : World) : World :=
  { w with mem := Function.update w.mem p (w.mem p).enable }

/-- A call of `disable()` on the object at address `p` by the host program. -/
def callDisable (p : Nat) (w : World) : World :=
  { w with mem := Function.update w.mem p (w.mem p).disable }

/-- Number of calls of `execute()` made for slot `i` in a call log. -/
def executeCount (i : Nat) (cs : List Call) : Nat :=
  cs.countP (fun c => match c with
    | Call.execute j _ _ => decide (j = i)
    | Call.finish _ _ _ => false)

/-- Number of calls of `finish()` made for slot `i` in a call log. -/
def finishCount (i : Nat) (cs : List Call) : Nat :=
  cs.countP (fun c => match c with
    | Call.execute _ _ _ => false
    | Call.finish j _ _ => decide (j = i))

/-- The fields of an event that the dispatcher never writes. -/
def TimerEvent.sameConfig (a b : TimerEvent) : Prop :=
  a.name = b.name ∧ a.period = b.period ∧ a.onExecutePtr = b.onExecutePtr ∧
    a.onFinishPtr = b.onFinishPtr ∧ a.duration = b.duration ∧ a.index = b.index

instance (a b : TimerEvent) : Decidable (a.sameConfig b) := by
  unfold TimerEvent.sameConfig; infer_instance

/-- The stop time the expiry comparison of slot `i` reads: `durations[i]` after
the latch step. -/
def deadline (time i : Nat) (w : World) : Nat :=
  (latch time i w).timerEvents.durations i

/-- Slot `i` is the only registered slot that refers to its event. -/
def unshared (i : Nat) (w : World) : Prop :=
  ∀ j, j < w.timerEvents.numberOfEvents → j ≠ i →
    w.timerEvents.events j ≠ w.timerEvents.events i

instance (i : Nat) (w : World) : Decidable (unshared i w) := by
  unfold unshared; infer_instance


/-- What the dispatcher keeps about one slot: the event object the slot refers
to, the two timestamps of the slot and the number of calls made for it. -/
structure SlotView where
  event : TimerEvent
  timeout : Nat
  stop : Nat
  executes : Nat
  finishes : Nat
deriving DecidableEq

/-- The view of slot `i` in a state. -/
def slotView (i : Nat) (w : World) : SlotView :=
  { event := w.mem (w.timerEvents.events i)
    timeout := w.timerEvents.timeouts i
    stop := w.timerEvents.durations i
    executes := executeCount i w.calls
    finishes := finishCount i w.calls }

/-- The loop body of `tasks` (lines 35-52) read on the view of its slot. -/
def stepView (time : Nat) (v : SlotView) : SlotView :=
  if v.event.isEnabled = false then v
  else
    let v₁ :=
      if v.event.duration ≠ -1 then
        let v₂ :=
          if v.event.firstCalled = 0 then
            { v with event := { v.event with firstCalled := time }
                     stop := addULong time v.event.duration }
          else v
        if time ≥ v₂.stop then
          { v₂ with event := { v₂.event.disable with firstCalled := 0 }
                    finishes := v₂.finishes + 1 }
        else v₂
      else v
    if time ≥ v₁.timeout then
      { v₁ with timeout := addUL time v₁.event.period, executes := v₁.executes + 1 }
    else v₁

/-! ## Concrete states

The events and the clock readings of the worked scenario of the specification:
`A(period = 100, duration = -1)` at address `0` and
`B(period = 50, duration = 250)` at address `1`. -/

/-- Event `A` of the worked scenario, as constructed. -/
def demoA : TimerEvent := TimerEvent.ctor "A" 100 (some 1) true (-1) none

/-- Event `B` of the worked scenario, as constructed. -/
def demoB : TimerEvent := TimerEvent.ctor "B" 50 (some 2) true 250 (some 3)

/-- A freshly constructed scheduler; `A` lives at address `0`, `B` elsewhere. -/
def emptyWorld : World :=
  { timerEvents :=
      { numberOfEvents := 0, events := fun _ => 0, timeouts := fun _ => 0,
        durations := fun _ => 0 }
    mem := fun p => if p = 0 then demoA else demoB
    calls := [] }

/-- The scheduler after `add(&A)` and `add(&B)`, both at clock reading `0`. -/
def demoWorld : World := add 0 0 1 (add 0 0 0 emptyWorld)

/-- A scheduler filled to capacity by thirty-two calls of `add`. -/
def fullWorld : World := (List.range 32).foldl (fun acc k => add 0 0 k acc) emptyWorld

/-- The seven clock readings of the worked scenario. -/
def scenarioReadings : List Nat := [0, 50, 100, 150, 200, 250, 300]

/-- The state of the worked scenario after its first `k` polls. -/
def scenarioAfter (k : Nat) : World := polls (scenarioReadings.take k) demoWorld

/-- The calls made for slot `i`, in the order in which they were made. -/
def slotCalls (i : Nat) (cs : List Call) : List Call :=
  cs.filter (fun c => match c with
    | Call.execute j _ _ => decide (j = i)
    | Call.finish j _ _ => decide (j = i))

/-- An enabled event with period `0` and no lifespan bound, as constructed. -/
def demoZ : TimerEvent := TimerEvent.ctor "Z" 0 (some 4) true (-1) none

/-- A freshly constructed scheduler and the event `Z`, not yet registered. -/
def zeroWorld : World := { emptyWorld with mem := fun _ => demoZ }

/-- A sequence of calls of `add`: each entry gives the event and the two clock
readings of its call. -/
def addEach (rs : List (Nat × Nat × Nat)) (w : World) : World :=
  rs.foldl (fun acc r => add r.2.1 r.2.2 r.1 acc) w

/-- Thirty-three registrations at clock reading `0`, of the objects at the
addresses `0, ..., 32`. -/
def manyRegistrations : List (Nat × Nat × Nat) := (List.range 33).map (fun k => (k, 0, 0))

/-- The registry bounds: at most `MAX_NUMBER_OF_EVENTS` slots are in use and
every event held by a slot in use has an index that is a slot in use. -/
def registryInv (w : World) : Prop :=
  w.timerEvents.numberOfEvents ≤ MAX_NUMBER_OF_EVENTS ∧
  ∀ j, j < w.timerEvents.numberOfEvents →
    0 ≤ (w.mem (w.timerEvents.events j)).index ∧
    (w.mem (w.timerEvents.events j)).index < (w.timerEvents.numberOfEvents : Int)

instance (w : World) : Decidable (registryInv w) := by
  unfold registryInv; infer_instance

/-- The index of the object at address `q` is `-1` or a slot in use: the two
values an index can have when only `add` writes it. -/
def indexAssigned (q : Nat) (w : World) : Prop :=
  (w.mem q).index = -1 ∨
    (0 ≤ (w.mem q).index ∧ (w.mem q).index < (w.timerEvents.numberOfEvents : Int))

instance (q : Nat) (w : World) : Decidable (indexAssigned q w) := by
  unfold indexAssigned; infer_instance

/-- The readings of those polls of the sequence `ts`, started in state `w`, that
made a call of `execute()` for slot `i`, in order. -/
def fireTimes (i : Nat) : List Nat → World → List Nat
  | [], _ => []
  | t :: ts, w =>
    if executeCount i (tasks t w).calls = executeCount i w.calls then
      fireTimes i ts (tasks t w)
    else t :: fireTimes i ts (tasks t w)

/-! ## Machine arithmetic -/

theorem addUL_of_lt {a b : Nat} (h : a + b < ULONG_MOD) : addUL a b = a + b := by
  unfold addUL; exact Nat.mod_eq_of_lt h

theorem addULong_of_lt {a : Nat} {d : Int} (h0 : 0 ≤ d) (h : (a : Int) + d < (ULONG_MOD : Int)) :
    ((addULong a d : Nat) : Int) = (a : Int) + d := by
  unfold addULong
  have h1 : (0 : Int) ≤ (a : Int) + d := by omega
  rw [Int.emod_eq_of_lt h1 h]
  exact Int.toNat_of_nonneg h1

theorem addULong_nat {a D : Nat} (h : a + D < ULONG_MOD) : addULong a (D : Int) = a + D := by
  have h1 := @addULong_of_lt a (D : Int) (Int.natCast_nonneg D) (by exact_mod_cast h)
  exact_mod_cast h1

/-! ## The loop body: what one slot leaves alone -/

theorem tasksSlot_numberOfEvents (time i : Nat) (w : World) :
    (tasksSlot time i w).timerEvents.numberOfEvents = w.timerEvents.numberOfEvents := by
  unfold tasksSlot fire expire latch
  simp only []
  split_ifs <;> rfl

theorem tasksSlot_events (time i : Nat) (w : World) :
    (tasksSlot time i w).timerEvents.events = w.timerEvents.events := by
  unfold tasksSlot fire expire latch
  simp only []
  split_ifs <;> rfl

theorem tasksSlot_timeouts_other (time : Nat) {i j : Nat} (h : i ≠ j) (w : World) :
    (tasksSlot time j w).timerEvents.timeouts i = w.timerEvents.timeouts i := by
  unfold tasksSlot fire expire latch
  simp only []
  split_ifs <;> simp [Function.update_noteq h]

theorem tasksSlot_durations_other (time : Nat) {i j : Nat} (h : i ≠ j) (w : World) :
    (tasksSlot time j w).timerEvents.durations i = w.timerEvents.durations i := by
  unfold tasksSlot fire expire latch
  simp only []
  split_ifs <;> simp [Function.update_noteq h]

theorem tasksSlot_mem_other (time j : Nat) {q : Nat} (w : World)
    (h : q ≠ w.timerEvents.events j) : (tasksSlot time j w).mem q = w.mem q := by
  unfold tasksSlot fire expire latch
  simp only []
  split_ifs <;> simp [Function.update_noteq h]

theorem tasksSlot_of_disabled (time j : Nat) (w : World)
    (h : (w.mem (w.timerEvents.events j)).isEnabled = false) : tasksSlot time j w = w := by
  unfold tasksSlot
  simp [h]

theorem tasksSlot_mem_disabled (time j : Nat) {q : Nat} (w : World)
    (h : (w.mem q).isEnabled = false) : (tasksSlot time j w).mem q = w.mem q := by
  by_cases hq : q = w.timerEvents.events j
  · rw [tasksSlot_of_disabled time j w (hq ▸ h)]
  · exact tasksSlot_mem_other time j w hq

theorem tasksSlot_executeCount_other (time : Nat) {i j : Nat} (h : i ≠ j) (w : World) :
    executeCount i (tasksSlot time j w).calls = executeCount i w.calls := by
  unfold tasksSlot fire expire latch executeCount
  simp only []
  split_ifs <;> simp [List.countP_append, Ne.symm h]

theorem tasksSlot_finishCount_other (time : Nat) {i j : Nat} (h : i ≠ j) (w : World) :
    finishCount i (tasksSlot time j w).calls = finishCount i w.calls := by
  unfold tasksSlot fire expire latch finishCount
  simp only []
  split_ifs <;> simp [List.countP_append, Ne.symm h]

theorem tasksSlot_config (time j q : Nat) (w : World) :
    ((tasksSlot time j w).mem q).sameConfig (w.mem q) := by
  unfold tasksSlot fire expire latch TimerEvent.sameConfig TimerEvent.disable
  simp only []
  by_cases hq : q = w.timerEvents.events j
  · subst hq
    split_ifs <;> simp
  · split_ifs <;> simp [Function.update_noteq hq]

/-! ## The loop body: what it does to its own slot -/

theorem tasksSlot_timeouts_self (time i : Nat) (w : World) :
    (tasksSlot time i w).timerEvents.timeouts i =
      if (w.mem (w.timerEvents.events i)).isEnabled = true ∧ w.timerEvents.timeouts i ≤ time
      then addUL time (w.mem (w.timerEvents.events i)).period
      else w.timerEvents.timeouts i := by
  unfold tasksSlot fire expire latch TimerEvent.disable
  simp only []
  split_ifs <;> simp_all

theorem tasksSlot_executeCount_self (time i : Nat) (w : World) :
    executeCount i (tasksSlot time i w).calls =
      executeCount i w.calls +
        if (w.mem (w.timerEvents.events i)).isEnabled = true ∧ w.timerEvents.timeouts i ≤ time
        then 1 else 0 := by
  unfold tasksSlot fire expire latch TimerEvent.disable executeCount
  simp only []
  split_ifs <;> simp_all [List.countP_append]

theorem deadline_eq (time i : Nat) (w : World) :
    deadline time i w =
      if (w.mem (w.timerEvents.events i)).firstCalled = 0
      then addULong time (w.mem (w.timerEvents.events i)).duration
      else w.timerEvents.durations i := by
  unfold deadline latch
  simp only []
  split_ifs <;> simp

theorem tasksSlot_of_bounded (time i : Nat) (w : World)
    (hen : (w.mem (w.timerEvents.events i)).isEnabled = true)
    (hb : (w.mem (w.timerEvents.events i)).duration ≠ -1) :
    tasksSlot time i w = fire time i (expire time i (latch time i w)) := by
  unfold tasksSlot
  simp [hen, hb]

theorem tasksSlot_of_unbounded (time i : Nat) (w : World)
    (hen : (w.mem (w.timerEvents.events i)).isEnabled = true)
    (hb : (w.mem (w.timerEvents.events i)).duration = -1) :
    tasksSlot time i w = fire time i w := by
  unfold tasksSlot
  simp [hen, hb]

theorem tasksSlot_durations_self (time i : Nat) (w : World) :
    (tasksSlot time i w).timerEvents.durations i =
      if (w.mem (w.timerEvents.events i)).isEnabled = true ∧
          (w.mem (w.timerEvents.events i)).duration ≠ -1 ∧
          (w.mem (w.timerEvents.events i)).firstCalled = 0
      then addULong time (w.mem (w.timerEvents.events i)).duration
      else w.timerEvents.durations i := by
  unfold tasksSlot fire expire latch TimerEvent.disable
  simp only []
  split_ifs <;> simp_all

theorem tasksSlot_finishCount_self (time i : Nat) (w : World) :
    finishCount i (tasksSlot time i w).calls =
      finishCount i w.calls +
        if (w.mem (w.timerEvents.events i)).isEnabled = true ∧
            (w.mem (w.timerEvents.events i)).duration ≠ -1 ∧ deadline time i w ≤ time
        then 1 else 0 := by
  rw [deadline_eq]
  unfold tasksSlot fire expire latch TimerEvent.disable finishCount
  simp only []
  split_ifs <;> simp_all [List.countP_append]

theorem tasksSlot_mem_self (time i : Nat) (w : World) :
    (tasksSlot time i w).mem (w.timerEvents.events i) =
      if (w.mem (w.timerEvents.events i)).isEnabled = true ∧
          (w.mem (w.timerEvents.events i)).duration ≠ -1 then
        if deadline time i w ≤ time then
          { w.mem (w.timerEvents.events i) with isEnabled := false, firstCalled := 0 }
        else if (w.mem (w.timerEvents.events i)).firstCalled = 0 then
          { w.mem (w.timerEvents.events i) with firstCalled := time }
        else w.mem (w.timerEvents.events i)
      else w.mem (w.timerEvents.events i) := by
  rw [deadline_eq]
  unfold tasksSlot fire expire latch TimerEvent.disable
  simp only []
  split_ifs <;> simp_all

theorem tasksSlot_mem_unbounded (time j : Nat) {q : Nat} (w : World)
    (h : (w.mem q).duration = -1) : (tasksSlot time j w).mem q = w.mem q := by
  by_cases hq : q = w.timerEvents.events j
  · subst hq
    rw [tasksSlot_mem_self]
    simp [h]
  · exact tasksSlot_mem_other time j w hq

theorem latch_of_called (time i : Nat) (w : World)
    (h : (w.mem (w.timerEvents.events i)).firstCalled ≠ 0) : latch time i w = w := by
  unfold latch
  simp [h]

theorem latch_mem_of_fresh (time i : Nat) (w : World)
    (h : (w.mem (w.timerEvents.events i)).firstCalled = 0) :
    (latch time i w).mem (w.timerEvents.events i) =
      { w.mem (w.timerEvents.events i) with firstCalled := time } := by
  unfold latch
  simp [h]

theorem slotView_tasksSlot (time i : Nat) (w : World) :
    slotView i (tasksSlot time i w) = stepView time (slotView i w) := by
  unfold slotView stepView tasksSlot fire expire latch TimerEvent.disable executeCount
    finishCount
  simp only []
  split_ifs <;> simp_all [List.countP_append]

/-! ## The loop -/

theorem tasksOver_nil (time : Nat) (w : World) : tasksOver time [] w = w := rfl

theorem tasksOver_cons (time j : Nat) (l : List Nat) (w : World) :
    tasksOver time (j :: l) w = tasksOver time l (tasksSlot time j w) := rfl

theorem tasksOver_append (time : Nat) (l₁ l₂ : List Nat) (w : World) :
    tasksOver time (l₁ ++ l₂) w = tasksOver time l₂ (tasksOver time l₁ w) := by
  unfold tasksOver; rw [List.foldl_append]

theorem tasksOver_numberOfEvents (time : Nat) (l : List Nat) (w : World) :
    (tasksOver time l w).timerEvents.numberOfEvents = w.timerEvents.numberOfEvents := by
  induction l generalizing w with
  | nil => rfl
  | cons j l ih => rw [tasksOver_cons, ih, tasksSlot_numberOfEvents]

theorem tasksOver_events (time : Nat) (l : List Nat) (w : World) :
    (tasksOver time l w).timerEvents.events = w.timerEvents.events := by
  induction l generalizing w with
  | nil => rfl
  | cons j l ih => rw [tasksOver_cons, ih, tasksSlot_events]

theorem tasksOver_timeouts_other (time : Nat) {i : Nat} (l : List Nat) (h : i ∉ l) (w : World) :
    (tasksOver time l w).timerEvents.timeouts i = w.timerEvents.timeouts i := by
  induction l generalizing w with
  | nil => rfl
  | cons j l ih =>
    rw [tasksOver_cons, ih (fun hm => h (List.mem_cons_of_mem _ hm)),
      tasksSlot_timeouts_other time (fun e => h (by simp [e]))]

theorem tasksOver_durations_other (time : Nat) {i : Nat} (l : List Nat) (h : i ∉ l) (w : World) :
    (tasksOver time l w).timerEvents.durations i = w.timerEvents.durations i := by
  induction l generalizing w with
  | nil => rfl
  | cons j l ih =>
    rw [tasksOver_cons, ih (fun hm => h (List.mem_cons_of_mem _ hm)),
      tasksSlot_durations_other time (fun e => h (by simp [e]))]

theorem tasksOver_executeCount_other (time : Nat) {i : Nat} (l : List Nat) (h : i ∉ l)
    (w : World) : executeCount i (tasksOver time l w).calls = executeCount i w.calls := by
  induction l generalizing w with
  | nil => rfl
  | cons j l ih =>
    rw [tasksOver_cons, ih (fun hm => h (List.mem_cons_of_mem _ hm)),
      tasksSlot_executeCount_other time (fun e => h (by simp [e]))]

theorem tasksOver_finishCount_other (time : Nat) {i : Nat} (l : List Nat) (h : i ∉ l)
    (w : World) : finishCount i (tasksOver time l w).calls = finishCount i w.calls := by
  induction l generalizing w with
  | nil => rfl
  | cons j l ih =>
    rw [tasksOver_cons, ih (fun hm => h (List.mem_cons_of_mem _ hm)),
      tasksSlot_finishCount_other time (fun e => h (by simp [e]))]

theorem tasksOver_config (time : Nat) (l : List Nat) (q : Nat) (w : World) :
    ((tasksOver time l w).mem q).sameConfig (w.mem q) := by
  induction l generalizing w with
  | nil => exact ⟨rfl, rfl, rfl, rfl, rfl, rfl⟩
  | cons j l ih =>
    rw [tasksOver_cons]
    obtain ⟨a1, a2, a3, a4, a5, a6⟩ := ih (tasksSlot time j w)
    obtain ⟨b1, b2, b3, b4, b5, b6⟩ := tasksSlot_config time j q w
    exact ⟨a1.trans b1, a2.trans b2, a3.trans b3, a4.trans b4, a5.trans b5, a6.trans b6⟩

theorem tasksOver_mem_disabled (time : Nat) (l : List Nat) {q : Nat} (w : World)
    (h : (w.mem q).isEnabled = false) : (tasksOver time l w).mem q = w.mem q := by
  induction l generalizing w with
  | nil => rfl
  | cons j l ih =>
    have hs := tasksSlot_mem_disabled time j w h
    rw [tasksOver_cons, ih (tasksSlot time j w) (hs ▸ h), hs]

theorem tasksOver_mem_other (time : Nat) (l : List Nat) {q : Nat} (w : World)
    (h : ∀ j ∈ l, w.timerEvents.events j ≠ q) : (tasksOver time l w).mem q = w.mem q := by
  induction l generalizing w with
  | nil => rfl
  | cons j l ih =>
    rw [tasksOver_cons, ih (tasksSlot time j w), tasksSlot_mem_other time j w]
    · exact fun e => h j (List.mem_cons_self _ _) e.symm
    · intro k hk
      rw [tasksSlot_events]
      exact h k (List.mem_cons_of_mem _ hk)

theorem tasksOver_mem_unbounded (time : Nat) (l : List Nat) {q : Nat} (w : World)
    (h : (w.mem q).duration = -1) : (tasksOver time l w).mem q = w.mem q := by
  induction l generalizing w with
  | nil => rfl
  | cons j l ih =>
    have hs := tasksSlot_mem_unbounded time j w h
    rw [tasksOver_cons, ih (tasksSlot time j w) (hs ▸ h), hs]

/-! ## One slot within a poll -/

/-- The slots of a poll, split at slot `i`. -/
theorem range_split {i n : Nat} (h : i < n) :
    List.range n = List.range i ++ i :: List.range' (i + 1) (n - (i + 1)) := by
  have h1 : List.range n = List.range' 0 n := List.range_eq_range' _
  have h2 : List.range i = List.range' 0 i := List.range_eq_range' _
  rw [h1, h2]
  have h3 : i :: List.range' (i + 1) (n - (i + 1)) = List.range' i (n - i) := by
    have : n - i = (n - (i + 1)) + 1 := by omega
    rw [this, List.range'_succ]
  rw [h3]
  have := @List.range'_append 0 i (n - i) 1
  simp only [Nat.one_mul, Nat.zero_add] at this
  rw [this]
  congr 1
  omega

theorem not_mem_range_self' (i : Nat) : i ∉ List.range i := by simp

theorem not_mem_range'_succ (i m : Nat) : i ∉ List.range' (i + 1) m := by
  simp [List.mem_range']
  intro k _
  omega

theorem reached_succ (time i : Nat) (w : World) :
    reached time (i + 1) w = tasksSlot time i (reached time i w) := by
  unfold reached
  rw [List.range_succ, tasksOver_append]
  rfl

theorem tasks_split (time : Nat) (w : World) {i : Nat} (h : i < w.timerEvents.numberOfEvents) :
    tasks time w =
      tasksOver time (List.range' (i + 1) (w.timerEvents.numberOfEvents - (i + 1)))
        (reached time (i + 1) w) := by
  rw [reached_succ]
  unfold tasks reached
  rw [range_split h, tasksOver_append, tasksOver_cons]

theorem reached_events (time i : Nat) (w : World) :
    (reached time i w).timerEvents.events = w.timerEvents.events :=
  tasksOver_events time _ w

theorem reached_config (time i q : Nat) (w : World) :
    ((reached time i w).mem q).sameConfig (w.mem q) :=
  tasksOver_config time _ q w

theorem reached_timeouts (time i : Nat) (w : World) :
    (reached time i w).timerEvents.timeouts i = w.timerEvents.timeouts i :=
  tasksOver_timeouts_other time _ (not_mem_range_self' i) w

theorem reached_durations (time i : Nat) (w : World) :
    (reached time i w).timerEvents.durations i = w.timerEvents.durations i :=
  tasksOver_durations_other time _ (not_mem_range_self' i) w

theorem reached_executeCount (time i : Nat) (w : World) :
    executeCount i (reached time i w).calls = executeCount i w.calls :=
  tasksOver_executeCount_other time _ (not_mem_range_self' i) w

theorem reached_finishCount (time i : Nat) (w : World) :
    finishCount i (reached time i w).calls = finishCount i w.calls :=
  tasksOver_finishCount_other time _ (not_mem_range_self' i) w

theorem tasks_timeouts (time : Nat) (w : World) {i : Nat}
    (h : i < w.timerEvents.numberOfEvents) :
    (tasks time w).timerEvents.timeouts i = (reached time (i + 1) w).timerEvents.timeouts i := by
  rw [tasks_split time w h]
  exact tasksOver_timeouts_other time _ (not_mem_range'_succ i _) _

theorem tasks_durations (time : Nat) (w : World) {i : Nat}
    (h : i < w.timerEvents.numberOfEvents) :
    (tasks time w).timerEvents.durations i =
      (reached time (i + 1) w).timerEvents.durations i := by
  rw [tasks_split time w h]
  exact tasksOver_durations_other time _ (not_mem_range'_succ i _) _

theorem tasks_executeCount (time : Nat) (w : World) {i : Nat}
    (h : i < w.timerEvents.numberOfEvents) :
    executeCount i (tasks time w).calls = executeCount i (reached time (i + 1) w).calls := by
  rw [tasks_split time w h]
  exact tasksOver_executeCount_other time _ (not_mem_range'_succ i _) _

theorem tasks_finishCount (time : Nat) (w : World) {i : Nat}
    (h : i < w.timerEvents.numberOfEvents) :
    finishCount i (tasks time w).calls = finishCount i (reached time (i + 1) w).calls := by
  rw [tasks_split time w h]
  exact tasksOver_finishCount_other time _ (not_mem_range'_succ i _) _

theorem tasks_mem_of_disabled (time : Nat) (w : World) {i q : Nat}
    (h : i < w.timerEvents.numberOfEvents)
    (hd : ((reached time (i + 1) w).mem q).isEnabled = false) :
    (tasks time w).mem q = (reached time (i + 1) w).mem q := by
  rw [tasks_split time w h]
  exact tasksOver_mem_disabled time _ _ hd

theorem tasks_mem_of_unshared (time : Nat) (w : World) {i : Nat}
    (h : i < w.timerEvents.numberOfEvents)
    (hu : ∀ j, j < w.timerEvents.numberOfEvents → j ≠ i →
      w.timerEvents.events j ≠ w.timerEvents.events i) :
    (tasks time w).mem (w.timerEvents.events i) =
      (reached time (i + 1) w).mem (w.timerEvents.events i) := by
  rw [tasks_split time w h]
  apply tasksOver_mem_other
  intro j hj
  rw [reached_events]
  rw [List.mem_range'] at hj
  obtain ⟨k, hk, rfl⟩ := hj
  exact hu _ (by omega) (by omega)

theorem tasks_mem_unbounded (time : Nat) (w : World) {q : Nat}
    (h : (w.mem q).duration = -1) : (tasks time w).mem q = w.mem q :=
  tasksOver_mem_unbounded time _ w h

theorem reached_mem_unbounded (time i : Nat) (w : World) {q : Nat}
    (h : (w.mem q).duration = -1) : (reached time i w).mem q = w.mem q :=
  tasksOver_mem_unbounded time _ w h

theorem tasks_slot_disabled (w : World) (now i : Nat)
    (hi : i < w.timerEvents.numberOfEvents)
    (hdis : ((reached now i w).mem (w.timerEvents.events i)).isEnabled = false) :
    reached now (i + 1) w = reached now i w ∧
    executeCount i (tasks now w).calls = executeCount i w.calls ∧
    finishCount i (tasks now w).calls = finishCount i w.calls ∧
    (tasks now w).timerEvents.timeouts i = w.timerEvents.timeouts i ∧
    (tasks now w).timerEvents.durations i = w.timerEvents.durations i ∧
    (tasks now w).mem (w.timerEvents.events i) =
      (reached now i w).mem (w.timerEvents.events i) ∧
    ((w.mem (w.timerEvents.events i)).isEnabled = false →
      (tasks now w).mem (w.timerEvents.events i) = w.mem (w.timerEvents.events i)) := by
  have hdis' : ((reached now i w).mem ((reached now i w).timerEvents.events i)).isEnabled
      = false := by
    rw [reached_events]; exact hdis
  have hs : reached now (i + 1) w = reached now i w := by
    rw [reached_succ, tasksSlot_of_disabled now i _ hdis']
  have hm : (tasks now w).mem (w.timerEvents.events i) =
      (reached now i w).mem (w.timerEvents.events i) := by
    rw [tasks_mem_of_disabled now w hi (hs ▸ hdis), hs]
  refine ⟨hs, ?_, ?_, ?_, ?_, hm, fun h0 => ?_⟩
  · rw [tasks_executeCount now w hi, hs, reached_executeCount]
  · rw [tasks_finishCount now w hi, hs, reached_finishCount]
  · rw [tasks_timeouts now w hi, hs, reached_timeouts]
  · rw [tasks_durations now w hi, hs, reached_durations]
  · exact tasksOver_mem_disabled now _ w h0

/-! ## A slot that does not share its event -/

theorem tasks_numberOfEvents (time : Nat) (w : World) :
    (tasks time w).timerEvents.numberOfEvents = w.timerEvents.numberOfEvents :=
  tasksOver_numberOfEvents time _ w

theorem tasks_events (time : Nat) (w : World) :
    (tasks time w).timerEvents.events = w.timerEvents.events :=
  tasksOver_events time _ w

theorem tasks_config (time q : Nat) (w : World) :
    ((tasks time w).mem q).sameConfig (w.mem q) :=
  tasksOver_config time _ q w

theorem tasks_unshared (time : Nat) {i : Nat} {w : World} (h : unshared i w) :
    unshared i (tasks time w) := by
  unfold unshared
  rw [tasks_numberOfEvents, tasks_events]
  exact h

theorem reached_mem_unshared (time : Nat) {i : Nat} {w : World}
    (hi : i < w.timerEvents.numberOfEvents) (hu : unshared i w) :
    (reached time i w).mem (w.timerEvents.events i) = w.mem (w.timerEvents.events i) := by
  apply tasksOver_mem_other
  intro j hj
  rw [List.mem_range] at hj
  exact hu j (by omega) (by omega)

theorem reached_deadline_unshared (time : Nat) {i : Nat} {w : World}
    (hi : i < w.timerEvents.numberOfEvents) (hu : unshared i w) :
    deadline time i (reached time i w) = deadline time i w := by
  rw [deadline_eq, deadline_eq, reached_events, reached_durations,
    reached_mem_unshared time hi hu]

/-- In an unshared slot a poll acts on the event as the loop body alone does. -/
theorem tasks_mem_unshared (time : Nat) {i : Nat} {w : World}
    (hi : i < w.timerEvents.numberOfEvents) (hu : unshared i w) :
    (tasks time w).mem (w.timerEvents.events i) =
      (tasksSlot time i w).mem (w.timerEvents.events i) := by
  rw [tasks_mem_of_unshared time w hi hu, reached_succ]
  have h := tasksSlot_mem_self time i (reached time i w)
  rw [reached_events, reached_deadline_unshared time hi hu,
    reached_mem_unshared time hi hu] at h
  rw [h, tasksSlot_mem_self]

theorem tasks_finishCount_unshared (time : Nat) {i : Nat} {w : World}
    (hi : i < w.timerEvents.numberOfEvents) (hu : unshared i w) :
    finishCount i (tasks time w).calls = finishCount i (tasksSlot time i w).calls := by
  rw [tasks_finishCount time w hi, reached_succ, tasksSlot_finishCount_self,
    tasksSlot_finishCount_self, reached_events, reached_deadline_unshared time hi hu,
    reached_mem_unshared time hi hu, reached_finishCount]

theorem tasks_executeCount_unshared (time : Nat) {i : Nat} {w : World}
    (hi : i < w.timerEvents.numberOfEvents) (hu : unshared i w) :
    executeCount i (tasks time w).calls = executeCount i (tasksSlot time i w).calls := by
  rw [tasks_executeCount time w hi, reached_succ, tasksSlot_executeCount_self,
    tasksSlot_executeCount_self, reached_events, reached_timeouts,
    reached_mem_unshared time hi hu, reached_executeCount]

theorem tasks_durations_unshared (time : Nat) {i : Nat} {w : World}
    (hi : i < w.timerEvents.numberOfEvents) (hu : unshared i w) :
    (tasks time w).timerEvents.durations i = (tasksSlot time i w).timerEvents.durations i := by
  rw [tasks_durations time w hi, reached_succ, tasksSlot_durations_self,
    tasksSlot_durations_self, reached_events, reached_durations,
    reached_mem_unshared time hi hu]

theorem tasks_timeouts_unshared (time : Nat) {i : Nat} {w : World}
    (hi : i < w.timerEvents.numberOfEvents) (hu : unshared i w) :
    (tasks time w).timerEvents.timeouts i = (tasksSlot time i w).timerEvents.timeouts i := by
  rw [tasks_timeouts time w hi, reached_succ, tasksSlot_timeouts_self,
    tasksSlot_timeouts_self, reached_events, reached_timeouts,
    reached_mem_unshared time hi hu]

theorem unshared_of_eq {i : Nat} {w w' : World}
    (hn : w'.timerEvents.numberOfEvents = w.timerEvents.numberOfEvents)
    (he : w'.timerEvents.events = w.timerEvents.events) (h : unshared i w) :
    unshared i w' := by
  unfold unshared
  rw [hn, he]
  exact h

/-! ## Sequences of polls -/

theorem polls_nil (w : World) : polls [] w = w := rfl

theorem polls_cons (t : Nat) (ts : List Nat) (w : World) :
    polls (t :: ts) w = polls ts (tasks t w) := rfl

theorem polls_append (ts₁ ts₂ : List Nat) (w : World) :
    polls (ts₁ ++ ts₂) w = polls ts₂ (polls ts₁ w) := by
  unfold polls; rw [List.foldl_append]

theorem polls_numberOfEvents (ts : List Nat) (w : World) :
    (polls ts w).timerEvents.numberOfEvents = w.timerEvents.numberOfEvents := by
  induction ts generalizing w with
  | nil => rfl
  | cons t ts ih => rw [polls_cons, ih, tasks_numberOfEvents]

theorem polls_events (ts : List Nat) (w : World) :
    (polls ts w).timerEvents.events = w.timerEvents.events := by
  induction ts generalizing w with
  | nil => rfl
  | cons t ts ih => rw [polls_cons, ih, tasks_events]

/-- A disabled event is left alone by any number of polls. -/
theorem polls_disabled (ts : List Nat) (w : World) (i : Nat)
    (hi : i < w.timerEvents.numberOfEvents)
    (hd : (w.mem (w.timerEvents.events i)).isEnabled = false) :
    (polls ts w).mem (w.timerEvents.events i) = w.mem (w.timerEvents.events i) ∧
    finishCount i (polls ts w).calls = finishCount i w.calls ∧
    executeCount i (polls ts w).calls = executeCount i w.calls ∧
    (polls ts w).timerEvents.timeouts i = w.timerEvents.timeouts i ∧
    (polls ts w).timerEvents.durations i = w.timerEvents.durations i := by
  induction ts generalizing w with
  | nil => exact ⟨rfl, rfl, rfl, rfl, rfl⟩
  | cons t ts ih =>
    have hr : ((reached t i w).mem (w.timerEvents.events i)).isEnabled = false := by
      unfold reached
      rw [tasksOver_mem_disabled t _ w hd]; exact hd
    obtain ⟨_, h2, h1, h3, h4, _, h5⟩ := tasks_slot_disabled w t i hi hr
    have h5 := h5 hd
    have hi' : i < (tasks t w).timerEvents.numberOfEvents := by
      rw [tasks_numberOfEvents]; exact hi
    have hd' : ((tasks t w).mem ((tasks t w).timerEvents.events i)).isEnabled = false := by
      rw [tasks_events, h5]; exact hd
    obtain ⟨a1, a2, a3, a4, a5⟩ := ih (tasks t w) hi' hd'
    rw [tasks_events] at a1
    rw [polls_cons]
    exact ⟨a1.trans h5, a2.trans h1, a3.trans h2, a4.trans h3, a5.trans h4⟩

/-- Once the start of a bounded event is latched, a sequence of polls calls
`finish()` at the first poll that reaches the stop time, and at no other. -/
theorem polls_latched (ts : List Nat) (w : World) (i : Nat)
    (hi : i < w.timerEvents.numberOfEvents) (hu : unshared i w)
    (hen : (w.mem (w.timerEvents.events i)).isEnabled = true)
    (hb : (w.mem (w.timerEvents.events i)).duration ≠ -1)
    (hfc : (w.mem (w.timerEvents.events i)).firstCalled ≠ 0) :
    finishCount i (polls ts w).calls =
      finishCount i w.calls + (if ∃ t ∈ ts, w.timerEvents.durations i ≤ t then 1 else 0) ∧
    ((polls ts w).mem (w.timerEvents.events i)).isEnabled =
      decide (∀ t ∈ ts, t < w.timerEvents.durations i) ∧
    (polls ts w).timerEvents.durations i = w.timerEvents.durations i := by
  induction ts generalizing w with
  | nil => simp [polls_nil, hen]
  | cons t ts ih =>
    have hdl : deadline t i w = w.timerEvents.durations i := by
      rw [deadline_eq, if_neg hfc]
    have hm := tasks_mem_unshared t hi hu
    have hf := tasks_finishCount_unshared t hi hu
    have hd := tasks_durations_unshared t hi hu
    rw [tasksSlot_mem_self, if_pos ⟨hen, hb⟩, hdl] at hm
    rw [tasksSlot_finishCount_self, hdl] at hf
    rw [tasksSlot_durations_self, if_neg (fun h => hfc h.2.2)] at hd
    have hi' : i < (tasks t w).timerEvents.numberOfEvents := by
      rw [tasks_numberOfEvents]; exact hi
    rw [polls_cons]
    by_cases hle : w.timerEvents.durations i ≤ t
    · rw [if_pos hle] at hm
      rw [if_pos ⟨hen, hb, hle⟩] at hf
      have hd' : ((tasks t w).mem ((tasks t w).timerEvents.events i)).isEnabled = false := by
        rw [tasks_events, hm]
      obtain ⟨a1, a2, _, _, a5⟩ := polls_disabled ts (tasks t w) i hi' hd'
      rw [tasks_events] at a1
      have hex : ∃ x ∈ t :: ts, w.timerEvents.durations i ≤ x := ⟨t, by simp, hle⟩
      have hnall : ¬ ∀ x ∈ t :: ts, x < w.timerEvents.durations i :=
        fun h => absurd (h t (by simp)) (Nat.not_lt.mpr hle)
      rw [if_pos hex, a2, hf, a1, hm, a5, hd]
      exact ⟨rfl, (decide_eq_false hnall).symm, rfl⟩
    · rw [if_neg hle, if_neg hfc] at hm
      rw [if_neg (fun h => hle h.2.2)] at hf
      have hu' := tasks_unshared t hu
      have hen' : ((tasks t w).mem ((tasks t w).timerEvents.events i)).isEnabled = true := by
        rw [tasks_events, hm]; exact hen
      have hb' : ((tasks t w).mem ((tasks t w).timerEvents.events i)).duration ≠ -1 := by
        rw [tasks_events, hm]; exact hb
      have hfc' : ((tasks t w).mem ((tasks t w).timerEvents.events i)).firstCalled ≠ 0 := by
        rw [tasks_events, hm]; exact hfc
      obtain ⟨a1, a2, a3⟩ := ih (tasks t w) hi' hu' hen' hb' hfc'
      rw [tasks_events, hd] at a2
      rw [hd] at a1 a3
      rw [a1, a2, a3, hf]
      refine ⟨?_, ?_, rfl⟩
      · congr 1
        have : (∃ x ∈ t :: ts, w.timerEvents.durations i ≤ x) ↔
            (∃ x ∈ ts, w.timerEvents.durations i ≤ x) := by
          simp [hle]
        simp only [this]
      · have : (∀ x ∈ t :: ts, x < w.timerEvents.durations i) ↔
            (∀ x ∈ ts, x < w.timerEvents.durations i) := by
          simp [Nat.lt_of_not_le hle]
        simp only [this]

theorem slotView_tasks (time : Nat) {i : Nat} {w : World}
    (hi : i < w.timerEvents.numberOfEvents) (hu : unshared i w) :
    slotView i (tasks time w) = stepView time (slotView i w) := by
  rw [← slotView_tasksSlot]
  unfold slotView
  rw [tasks_events, tasks_mem_unshared time hi hu, tasks_timeouts_unshared time hi hu,
    tasks_durations_unshared time hi hu, tasks_executeCount_unshared time hi hu,
    tasks_finishCount_unshared time hi hu, tasksSlot_events]

theorem slotView_polls (ts : List Nat) {i : Nat} (w : World)
    (hi : i < w.timerEvents.numberOfEvents) (hu : unshared i w) :
    slotView i (polls ts w) = ts.foldl (fun v t => stepView t v) (slotView i w) := by
  induction ts generalizing w with
  | nil => rfl
  | cons t ts ih =>
    rw [polls_cons, ih (tasks t w) (by rw [tasks_numberOfEvents]; exact hi)
      (tasks_unshared t hu), slotView_tasks t hi hu]
    rfl

/-! ## Registration -/

theorem add_of_room {w : World} (t₁ t₂ e : Nat)
    (h : w.timerEvents.numberOfEvents < MAX_NUMBER_OF_EVENTS) :
    add t₁ t₂ e w =
      { timerEvents :=
          { numberOfEvents := w.timerEvents.numberOfEvents + 1
            events := Function.update w.timerEvents.events w.timerEvents.numberOfEvents e
            timeouts := Function.update w.timerEvents.timeouts w.timerEvents.numberOfEvents t₁
            durations :=
              Function.update w.timerEvents.durations w.timerEvents.numberOfEvents t₂ }
        mem := Function.update w.mem e
          { w.mem e with index := (w.timerEvents.numberOfEvents : Int) }
        calls := w.calls } := by
  unfold add
  rw [if_neg (Nat.not_le.mpr h)]

theorem add_unshared {w : World} (t₁ t₂ e : Nat)
    (h : w.timerEvents.numberOfEvents < MAX_NUMBER_OF_EVENTS)
    (hfresh : ∀ j, j < w.timerEvents.numberOfEvents → w.timerEvents.events j ≠ e) :
    unshared w.timerEvents.numberOfEvents (add t₁ t₂ e w) := by
  rw [add_of_room t₁ t₂ e h]
  intro j hj hne
  simp only [Function.update_same, Function.update_noteq hne]
  exact hfresh j (by simp only [] at hj; omega)

theorem add_numberOfEvents {w : World} (t₁ t₂ e : Nat)
    (h : w.timerEvents.numberOfEvents < MAX_NUMBER_OF_EVENTS) :
    (add t₁ t₂ e w).timerEvents.numberOfEvents = w.timerEvents.numberOfEvents + 1 := by
  rw [add_of_room t₁ t₂ e h]

theorem add_events_new {w : World} (t₁ t₂ e : Nat)
    (h : w.timerEvents.numberOfEvents < MAX_NUMBER_OF_EVENTS) :
    (add t₁ t₂ e w).timerEvents.events w.timerEvents.numberOfEvents = e := by
  rw [add_of_room t₁ t₂ e h]; simp

theorem add_events_old {w : World} (t₁ t₂ e : Nat) {j : Nat}
    (hj : j < w.timerEvents.numberOfEvents) :
    (add t₁ t₂ e w).timerEvents.events j = w.timerEvents.events j := by
  unfold add
  split_ifs
  · rfl
  · simp [Function.update_noteq (Nat.ne_of_lt hj)]

theorem add_mem_other {w : World} (t₁ t₂ e : Nat) {q : Nat} (hq : q ≠ e) :
    (add t₁ t₂ e w).mem q = w.mem q := by
  unfold add
  split_ifs
  · rfl
  · simp [Function.update_noteq hq]

theorem slotView_add_new {w : World} (t₁ t₂ e : Nat)
    (h : w.timerEvents.numberOfEvents < MAX_NUMBER_OF_EVENTS) :
    slotView w.timerEvents.numberOfEvents (add t₁ t₂ e w) =
      { event := { w.mem e with index := (w.timerEvents.numberOfEvents : Int) }
        timeout := t₁, stop := t₂
        executes := executeCount w.timerEvents.numberOfEvents w.calls
        finishes := finishCount w.timerEvents.numberOfEvents w.calls } := by
  rw [add_of_room t₁ t₂ e h]
  unfold slotView
  simp only []
  rw [Function.update_same, Function.update_same, Function.update_same, Function.update_same]

theorem slotView_add_old {w : World} (t₁ t₂ e : Nat) {j : Nat}
    (hj : j < w.timerEvents.numberOfEvents) (hne : w.timerEvents.events j ≠ e) :
    slotView j (add t₁ t₂ e w) = slotView j w := by
  unfold add
  split_ifs
  · rfl
  · unfold slotView
    simp only []
    rw [Function.update_noteq (Nat.ne_of_lt hj), Function.update_noteq (Nat.ne_of_lt hj),
      Function.update_noteq (Nat.ne_of_lt hj), Function.update_noteq hne]

theorem add_unshared_old {w : World} (t₁ t₂ e : Nat) {j : Nat}
    (hj : j < w.timerEvents.numberOfEvents) (hne : w.timerEvents.events j ≠ e)
    (hu : unshared j w) : unshared j (add t₁ t₂ e w) := by
  by_cases h : w.timerEvents.numberOfEvents < MAX_NUMBER_OF_EVENTS
  · intro k hk hkj
    rw [add_numberOfEvents t₁ t₂ e h] at hk
    rw [add_events_old t₁ t₂ e hj]
    by_cases hkn : k = w.timerEvents.numberOfEvents
    · rw [hkn, add_events_new t₁ t₂ e h]
      exact fun heq => hne heq.symm
    · rw [add_events_old t₁ t₂ e (by omega)]
      exact hu k (by omega) hkj
  · have : add t₁ t₂ e w = w := by
      unfold add
      rw [if_pos (Nat.not_lt.mp h)]
    rw [this]; exact hu

/-! ## The lifespan of a freshly registered event -/

/-- A fresh bounded event in an unshared slot: the lifespan is counted from the
first poll. -/
theorem polls_fresh (w : World) (i D t₁ : Nat) (rest : List Nat)
    (hi : i < w.timerEvents.numberOfEvents) (hu : unshared i w)
    (hen : (w.mem (w.timerEvents.events i)).isEnabled = true)
    (hD : (w.mem (w.timerEvents.events i)).duration = (D : Int))
    (hfc : (w.mem (w.timerEvents.events i)).firstCalled = 0)
    (ht : 0 < t₁) (hw : t₁ + D < ULONG_MOD) :
    finishCount i (polls (t₁ :: rest) w).calls =
      finishCount i w.calls + (if ∃ t ∈ t₁ :: rest, t₁ + D ≤ t then 1 else 0) ∧
    ((polls (t₁ :: rest) w).mem (w.timerEvents.events i)).isEnabled =
      decide (∀ t ∈ t₁ :: rest, t < t₁ + D) := by
  have hb : (w.mem (w.timerEvents.events i)).duration ≠ -1 := by
    rw [hD]; omega
  have hdl : deadline t₁ i w = t₁ + D := by
    rw [deadline_eq, if_pos hfc, hD, addULong_nat hw]
  have hm := tasks_mem_unshared t₁ hi hu
  have hf := tasks_finishCount_unshared t₁ hi hu
  have hd := tasks_durations_unshared t₁ hi hu
  rw [tasksSlot_mem_self, if_pos ⟨hen, hb⟩, hdl] at hm
  rw [tasksSlot_finishCount_self, hdl] at hf
  rw [tasksSlot_durations_self, if_pos ⟨hen, hb, hfc⟩, hD, addULong_nat hw] at hd
  have hi' : i < (tasks t₁ w).timerEvents.numberOfEvents := by
    rw [tasks_numberOfEvents]; exact hi
  rw [polls_cons]
  by_cases hle : t₁ + D ≤ t₁
  · rw [if_pos hle] at hm
    rw [if_pos ⟨hen, hb, hle⟩] at hf
    have hd' : ((tasks t₁ w).mem ((tasks t₁ w).timerEvents.events i)).isEnabled = false := by
      rw [tasks_events, hm]
    obtain ⟨a1, a2, _, _, _⟩ := polls_disabled rest (tasks t₁ w) i hi' hd'
    rw [tasks_events] at a1
    have hex : ∃ x ∈ t₁ :: rest, t₁ + D ≤ x := ⟨t₁, by simp, hle⟩
    have hnall : ¬ ∀ x ∈ t₁ :: rest, x < t₁ + D :=
      fun h => absurd (h t₁ (by simp)) (Nat.not_lt.mpr hle)
    rw [if_pos hex, a2, hf, a1, hm]
    exact ⟨rfl, (decide_eq_false hnall).symm⟩
  · rw [if_neg hle, if_pos hfc] at hm
    rw [if_neg (fun h => hle h.2.2)] at hf
    have hu' := tasks_unshared t₁ hu
    have hen' : ((tasks t₁ w).mem ((tasks t₁ w).timerEvents.events i)).isEnabled = true := by
      rw [tasks_events, hm]; exact hen
    have hb' : ((tasks t₁ w).mem ((tasks t₁ w).timerEvents.events i)).duration ≠ -1 := by
      rw [tasks_events, hm]; exact hb
    have hfc' : ((tasks t₁ w).mem ((tasks t₁ w).timerEvents.events i)).firstCalled ≠ 0 := by
      rw [tasks_events, hm]; exact Nat.pos_iff_ne_zero.mp ht
    obtain ⟨a1, a2, _⟩ := polls_latched rest (tasks t₁ w) i hi' hu' hen' hb' hfc'
    rw [tasks_events, hd] at a2
    rw [hd] at a1
    rw [a1, a2, hf]
    constructor
    · congr 1
      have : (∃ x ∈ t₁ :: rest, t₁ + D ≤ x) ↔ (∃ x ∈ rest, t₁ + D ≤ x) := by
        simp [hle]
      simp only [this]
    · have : (∀ x ∈ t₁ :: rest, x < t₁ + D) ↔ (∀ x ∈ rest, x < t₁ + D) := by
        simp [Nat.lt_of_not_le hle]
      simp only [this]

/-- After registration of a fresh enabled bounded event, the number of
`finish()` calls after any run of polls that starts with the reading `t₁`. -/
theorem polls_after_add (w : World) (T₁ T₂ e D t₁ : Nat) (rest : List Nat)
    (hn : w.timerEvents.numberOfEvents < MAX_NUMBER_OF_EVENTS)
    (hfresh : ∀ j, j < w.timerEvents.numberOfEvents → w.timerEvents.events j ≠ e)
    (hen : (w.mem e).isEnabled = true)
    (hD : (w.mem e).duration = (D : Int))
    (hfc : (w.mem e).firstCalled = 0)
    (ht : 0 < t₁) (hw : t₁ + D < ULONG_MOD) :
    finishCount w.timerEvents.numberOfEvents (polls (t₁ :: rest) (add T₁ T₂ e w)).calls =
      finishCount w.timerEvents.numberOfEvents w.calls +
        (if ∃ t ∈ t₁ :: rest, t₁ + D ≤ t then 1 else 0) ∧
    ((polls (t₁ :: rest) (add T₁ T₂ e w)).mem e).isEnabled =
      decide (∀ t ∈ t₁ :: rest, t < t₁ + D) := by
  have hu := add_unshared T₁ T₂ e hn hfresh
  have hev : (add T₁ T₂ e w).timerEvents.events w.timerEvents.numberOfEvents = e := by
    rw [add_of_room T₁ T₂ e hn]; simp
  have hmem : (add T₁ T₂ e w).mem e =
      { w.mem e with index := (w.timerEvents.numberOfEvents : Int) } := by
    rw [add_of_room T₁ T₂ e hn]; simp
  have hcalls : (add T₁ T₂ e w).calls = w.calls := by
    rw [add_of_room T₁ T₂ e hn]
  have hnum : w.timerEvents.numberOfEvents < (add T₁ T₂ e w).timerEvents.numberOfEvents := by
    rw [add_of_room T₁ T₂ e hn]; simp
  have h := polls_fresh (add T₁ T₂ e w) w.timerEvents.numberOfEvents D t₁ rest hnum hu
    (by rw [hev, hmem]; exact hen) (by rw [hev, hmem]; exact hD)
    (by rw [hev, hmem]; exact hfc) ht hw
  rw [hev, hcalls] at h
  exact h

/-! ## C1: the fire rule -/

/-- C1 (fire rule of one poll).  Let slot `i` be registered and its event be
enabled in the state in which the loop of `tasks` reaches the slot.  If
`now >= timeouts[i]`, the poll makes exactly one call of `execute()` for the
slot and leaves `timeouts[i] = now + period` (the `unsigned long` sum, which is
the plain sum when it does not wrap); otherwise it makes no call of
`execute()` for the slot and leaves `timeouts[i]` as it was.  The new target is
computed from `now`, whatever the old target was. -/
theorem C1_fire_rule (w : World) (now i : Nat) (hi : i < w.timerEvents.numberOfEvents)
    (hen : ((reached now i w).mem (w.timerEvents.events i)).isEnabled = true) :
    (w.timerEvents.timeouts i ≤ now →
        executeCount i (tasks now w).calls = executeCount i w.calls + 1 ∧
        (tasks now w).timerEvents.timeouts i =
          addUL now (w.mem (w.timerEvents.events i)).period ∧
        (now + (w.mem (w.timerEvents.events i)).period < ULONG_MOD →
          (tasks now w).timerEvents.timeouts i =
            now + (w.mem (w.timerEvents.events i)).period)) ∧
    (now < w.timerEvents.timeouts i →
        executeCount i (tasks now w).calls = executeCount i w.calls ∧
        (tasks now w).timerEvents.timeouts i = w.timerEvents.timeouts i) := by
  have hc := tasks_executeCount now w hi
  have ht := tasks_timeouts now w hi
  rw [reached_succ, tasksSlot_executeCount_self, reached_executeCount, reached_events,
    reached_timeouts] at hc
  rw [reached_succ, tasksSlot_timeouts_self, reached_events, reached_timeouts,
    (reached_config now i (w.timerEvents.events i) w).2.1] at ht
  constructor
  · intro hle
    rw [if_pos ⟨hen, hle⟩] at hc ht
    exact ⟨hc, ht, fun hlt => ht.trans (addUL_of_lt hlt)⟩
  · intro hlt
    rw [if_neg (fun h => absurd h.2 (Nat.not_le.mpr hlt))] at hc ht
    exact ⟨hc, ht⟩

/-- C1 at a concrete input: registered event `A`, polled at reading `100`. -/
theorem C1_fire_rule_witness :
    (0 < demoWorld.timerEvents.numberOfEvents ∧
      ((reached 100 0 demoWorld).mem (demoWorld.timerEvents.events 0)).isEnabled = true ∧
      demoWorld.timerEvents.timeouts 0 ≤ 100) ∧
    executeCount 0 (tasks 100 demoWorld).calls = executeCount 0 demoWorld.calls + 1 ∧
    (tasks 100 demoWorld).timerEvents.timeouts 0 = 200 :=
  ⟨by decide,
    ((C1_fire_rule demoWorld 100 0 (by decide) (by decide)).1 (by decide)).1,
    ((C1_fire_rule demoWorld 100 0 (by decide) (by decide)).1 (by decide)).2.2 (by decide)⟩

/-! ## C2: the expiry rule -/

/-- C2 (expiry rule of one poll).  Let slot `i` be registered and its event be
enabled when the slot is reached, with `duration != -1`, and let the deadline
be `durations[i]` after the latch step.  If `now >= deadline`, then after the
slot is processed, and still when `tasks` returns, the event has
`isEnabled = false` and `firstCalled = 0`, and the poll has made exactly one
call of `finish()` for the slot.  If `now < deadline`, the event is still
enabled after the slot is processed (and when `tasks` returns, if no other slot
refers to the same event) and no call of `finish()` is made for the slot.  For
an event with `duration == -1` the poll changes neither `isEnabled` nor
`firstCalled`, and for every slot that holds it makes no call of `finish()` and
leaves `durations[i]` unchanged. -/
theorem C2_expiry_rule (w : World) (now : Nat) :
    (∀ i, i < w.timerEvents.numberOfEvents →
      ((reached now i w).mem (w.timerEvents.events i)).isEnabled = true →
      (w.mem (w.timerEvents.events i)).duration ≠ -1 →
        (deadline now i (reached now i w) ≤ now →
          ((reached now (i + 1) w).mem (w.timerEvents.events i)).isEnabled = false ∧
          ((reached now (i + 1) w).mem (w.timerEvents.events i)).firstCalled = 0 ∧
          ((tasks now w).mem (w.timerEvents.events i)).isEnabled = false ∧
          ((tasks now w).mem (w.timerEvents.events i)).firstCalled = 0 ∧
          finishCount i (tasks now w).calls = finishCount i w.calls + 1) ∧
        (now < deadline now i (reached now i w) →
          ((reached now (i + 1) w).mem (w.timerEvents.events i)).isEnabled = true ∧
          ((∀ j, j < w.timerEvents.numberOfEvents → j ≠ i →
              w.timerEvents.events j ≠ w.timerEvents.events i) →
            ((tasks now w).mem (w.timerEvents.events i)).isEnabled = true) ∧
          finishCount i (tasks now w).calls = finishCount i w.calls)) ∧
    (∀ q, (w.mem q).duration = -1 →
      ((tasks now w).mem q).isEnabled = (w.mem q).isEnabled ∧
      ((tasks now w).mem q).firstCalled = (w.mem q).firstCalled ∧
      ∀ i, i < w.timerEvents.numberOfEvents → w.timerEvents.events i = q →
        finishCount i (tasks now w).calls = finishCount i w.calls ∧
        (tasks now w).timerEvents.durations i = w.timerEvents.durations i) := by
  constructor
  · intro i hi hen hb
    have hb' : ((reached now i w).mem ((reached now i w).timerEvents.events i)).duration ≠ -1 := by
      rw [reached_events, (reached_config now i _ w).2.2.2.2.1]; exact hb
    have hen' : ((reached now i w).mem ((reached now i w).timerEvents.events i)).isEnabled
        = true := by
      rw [reached_events]; exact hen
    have hc := tasks_finishCount now w hi
    rw [reached_succ, tasksSlot_finishCount_self, reached_finishCount] at hc
    have hm := tasksSlot_mem_self now i (reached now i w)
    rw [← reached_succ, if_pos ⟨hen', hb'⟩, reached_events] at hm
    constructor
    · intro hle
      rw [if_pos ⟨hen', hb', hle⟩] at hc
      rw [if_pos hle] at hm
      have h1 : ((reached now (i + 1) w).mem (w.timerEvents.events i)).isEnabled = false := by
        rw [hm]
      have h2 : ((reached now (i + 1) w).mem (w.timerEvents.events i)).firstCalled = 0 := by
        rw [hm]
      rw [tasks_mem_of_disabled now w hi h1]
      exact ⟨h1, h2, h1, h2, hc⟩
    · intro hlt
      have hnle : ¬ deadline now i (reached now i w) ≤ now := Nat.not_le.mpr hlt
      rw [if_neg (fun h => hnle h.2.2)] at hc
      rw [if_neg hnle] at hm
      have h1 : ((reached now (i + 1) w).mem (w.timerEvents.events i)).isEnabled = true := by
        rw [hm]; split_ifs <;> exact hen
      refine ⟨h1, fun hu => ?_, hc⟩
      rw [tasks_mem_of_unshared now w hi hu]
      exact h1
  · intro q hq
    rw [tasks_mem_unbounded now w hq]
    refine ⟨rfl, rfl, fun i hi he => ?_⟩
    have hq' : ((reached now i w).mem ((reached now i w).timerEvents.events i)).duration
        = -1 := by
      rw [reached_events, he, reached_mem_unbounded now i w hq]; exact hq
    have hc := tasks_finishCount now w hi
    have hd := tasks_durations now w hi
    rw [reached_succ, tasksSlot_finishCount_self, reached_finishCount,
      if_neg (fun h => h.2.1 hq')] at hc
    rw [reached_succ, tasksSlot_durations_self, reached_durations,
      if_neg (fun h => h.2.1 hq')] at hd
    exact ⟨hc, hd⟩

/-- C2 at a concrete input: event `B` of the worked scenario at the poll at
reading `300`, where it expires. -/
theorem C2_expiry_rule_witness :
    (1 < (scenarioAfter 6).timerEvents.numberOfEvents ∧
      ((reached 300 1 (scenarioAfter 6)).mem
        ((scenarioAfter 6).timerEvents.events 1)).isEnabled = true ∧
      ((scenarioAfter 6).mem ((scenarioAfter 6).timerEvents.events 1)).duration ≠ -1 ∧
      deadline 300 1 (reached 300 1 (scenarioAfter 6)) ≤ 300) ∧
    ((tasks 300 (scenarioAfter 6)).mem ((scenarioAfter 6).timerEvents.events 1)).isEnabled
      = false ∧
    finishCount 1 (tasks 300 (scenarioAfter 6)).calls =
      finishCount 1 (scenarioAfter 6).calls + 1 :=
  ⟨by decide,
    (((C2_expiry_rule (scenarioAfter 6) 300).1 1 (by decide) (by decide) (by decide)).1
      (by decide)).2.2.1,
    (((C2_expiry_rule (scenarioAfter 6) 300).1 1 (by decide) (by decide) (by decide)).1
      (by decide)).2.2.2.2⟩

/-! ## C3: the latch rule -/

/-- C3 (latch rule of one poll).  Let slot `i` be registered and its event be
enabled and bounded (`duration != -1`) when the slot is reached.  The slot is
processed as latch, then expiry comparison, then fire check.  If
`firstCalled == 0`, the latch step sets `firstCalled = now` and
`durations[i] = now + duration` before the expiry comparison, `durations[i]`
keeps that value until `tasks` returns, and `firstCalled` is still `now` after
the slot unless the event expires.  If `firstCalled != 0`, the latch step does
nothing, `durations[i]` is unchanged by the poll, and `firstCalled` is
unchanged unless the event expires. -/
theorem C3_latch_rule (w : World) (now i : Nat) (hi : i < w.timerEvents.numberOfEvents)
    (hen : ((reached now i w).mem (w.timerEvents.events i)).isEnabled = true)
    (hb : (w.mem (w.timerEvents.events i)).duration ≠ -1) :
    reached now (i + 1) w = fire now i (expire now i (latch now i (reached now i w))) ∧
    (((reached now i w).mem (w.timerEvents.events i)).firstCalled = 0 →
      ((latch now i (reached now i w)).mem (w.timerEvents.events i)).firstCalled = now ∧
      (latch now i (reached now i w)).timerEvents.durations i =
        addULong now (w.mem (w.timerEvents.events i)).duration ∧
      (tasks now w).timerEvents.durations i =
        addULong now (w.mem (w.timerEvents.events i)).duration ∧
      (0 ≤ (w.mem (w.timerEvents.events i)).duration →
        (now : Int) + (w.mem (w.timerEvents.events i)).duration < (ULONG_MOD : Int) →
        (((tasks now w).timerEvents.durations i : Nat) : Int) =
          (now : Int) + (w.mem (w.timerEvents.events i)).duration) ∧
      (now < addULong now (w.mem (w.timerEvents.events i)).duration →
        ((reached now (i + 1) w).mem (w.timerEvents.events i)).firstCalled = now)) ∧
    (((reached now i w).mem (w.timerEvents.events i)).firstCalled ≠ 0 →
      latch now i (reached now i w) = reached now i w ∧
      (tasks now w).timerEvents.durations i = w.timerEvents.durations i ∧
      (now < w.timerEvents.durations i →
        ((reached now (i + 1) w).mem (w.timerEvents.events i)).firstCalled =
          ((reached now i w).mem (w.timerEvents.events i)).firstCalled)) := by
  have hcfg : ((reached now i w).mem (w.timerEvents.events i)).duration =
      (w.mem (w.timerEvents.events i)).duration := (reached_config now i _ w).2.2.2.2.1
  have hb' : ((reached now i w).mem ((reached now i w).timerEvents.events i)).duration ≠ -1 := by
    rw [reached_events, hcfg]; exact hb
  have hen' : ((reached now i w).mem ((reached now i w).timerEvents.events i)).isEnabled
      = true := by
    rw [reached_events]; exact hen
  have hd := tasks_durations now w hi
  rw [reached_succ, tasksSlot_durations_self, reached_durations, reached_events, hcfg] at hd
  have hm := tasksSlot_mem_self now i (reached now i w)
  rw [← reached_succ, if_pos ⟨hen', hb'⟩, deadline_eq, reached_events, reached_durations,
    hcfg] at hm
  refine ⟨?_, ?_, ?_⟩
  · rw [reached_succ, tasksSlot_of_bounded now i _ hen' hb']
  · intro hf
    have hf' : ((reached now i w).mem ((reached now i w).timerEvents.events i)).firstCalled
        = 0 := by
      rw [reached_events]; exact hf
    have hl := latch_mem_of_fresh now i (reached now i w) hf'
    rw [reached_events] at hl
    have hdl := deadline_eq now i (reached now i w)
    unfold deadline at hdl
    rw [if_pos hf', reached_events, hcfg] at hdl
    rw [if_pos ⟨hen, hcfg ▸ hb, hf⟩] at hd
    refine ⟨by rw [hl], hdl, hd, fun h0 hlt => ?_, fun hlt => ?_⟩
    · rw [hd]; exact addULong_of_lt h0 hlt
    · rw [if_pos hf, if_neg (Nat.not_le.mpr hlt), if_pos hf] at hm
      rw [hm]
  · intro hf
    have hf' : ((reached now i w).mem ((reached now i w).timerEvents.events i)).firstCalled
        ≠ 0 := by
      rw [reached_events]; exact hf
    rw [if_neg (fun h => hf h.2.2)] at hd
    refine ⟨latch_of_called now i _ hf', hd, fun hlt => ?_⟩
    rw [if_neg hf, if_neg (Nat.not_le.mpr hlt), if_neg hf] at hm
    rw [hm]

/-- C3 at a concrete input: event `B`, not yet latched, polled at reading `10`. -/
theorem C3_latch_rule_witness :
    (1 < demoWorld.timerEvents.numberOfEvents ∧
      ((reached 10 1 demoWorld).mem (demoWorld.timerEvents.events 1)).isEnabled = true ∧
      (demoWorld.mem (demoWorld.timerEvents.events 1)).duration ≠ -1 ∧
      ((reached 10 1 demoWorld).mem (demoWorld.timerEvents.events 1)).firstCalled = 0) ∧
    ((latch 10 1 (reached 10 1 demoWorld)).mem (demoWorld.timerEvents.events 1)).firstCalled
      = 10 ∧
    (tasks 10 demoWorld).timerEvents.durations 1 =
      addULong 10 (demoWorld.mem (demoWorld.timerEvents.events 1)).duration :=
  ⟨by decide,
    ((C3_latch_rule demoWorld 10 1 (by decide) (by decide) (by decide)).2.1 (by decide)).1,
    ((C3_latch_rule demoWorld 10 1 (by decide) (by decide) (by decide)).2.1
      (by decide)).2.2.1⟩

/-! ## C4: disabled events -/

/-- C4 (a disabled event is skipped entirely).  Let slot `i` be registered and
its event have `isEnabled == false` when the slot is reached.  Processing the
slot leaves the whole state as it is; over the whole poll no call of
`execute()` or `finish()` is made for the slot, `timeouts[i]` and
`durations[i]` are unchanged, and every field of the event is, when `tasks`
returns, what it was when the slot was reached (and what it was before the
poll, if the event was disabled then). -/
theorem C4_disabled_skipped (w : World) (now i : Nat)
    (hi : i < w.timerEvents.numberOfEvents)
    (hdis : ((reached now i w).mem (w.timerEvents.events i)).isEnabled = false) :
    reached now (i + 1) w = reached now i w ∧
    executeCount i (tasks now w).calls = executeCount i w.calls ∧
    finishCount i (tasks now w).calls = finishCount i w.calls ∧
    (tasks now w).timerEvents.timeouts i = w.timerEvents.timeouts i ∧
    (tasks now w).timerEvents.durations i = w.timerEvents.durations i ∧
    (tasks now w).mem (w.timerEvents.events i) =
      (reached now i w).mem (w.timerEvents.events i) ∧
    ((w.mem (w.timerEvents.events i)).isEnabled = false →
      (tasks now w).mem (w.timerEvents.events i) = w.mem (w.timerEvents.events i)) :=
  tasks_slot_disabled w now i hi hdis

/-- C4 at a concrete input: event `B` disabled by the host, then a poll at
reading `100`. -/
theorem C4_disabled_skipped_witness :
    (1 < (callDisable 1 demoWorld).timerEvents.numberOfEvents ∧
      ((reached 100 1 (callDisable 1 demoWorld)).mem
        ((callDisable 1 demoWorld).timerEvents.events 1)).isEnabled = false) ∧
    executeCount 1 (tasks 100 (callDisable 1 demoWorld)).calls =
      executeCount 1 (callDisable 1 demoWorld).calls ∧
    (tasks 100 (callDisable 1 demoWorld)).timerEvents.timeouts 1 =
      (callDisable 1 demoWorld).timerEvents.timeouts 1 :=
  ⟨by decide,
    (C4_disabled_skipped (callDisable 1 demoWorld) 100 1 (by decide) (by decide)).2.1,
    (C4_disabled_skipped (callDisable 1 demoWorld) 100 1 (by decide) (by decide)).2.2.2.1⟩

/-! ## C5: when the lifespan starts -/

/-- C5 fails as stated: event `B` (lifespan `250`) is registered at reading
`10` and polled at `60` and `270`.  The poll at `270` is the first with
`now >= 10 + 250`, yet after it `finish()` has not been called and the event is
still enabled. -/
theorem C5_counterexample :
    emptyWorld.timerEvents.numberOfEvents = 0 ∧
    (emptyWorld.mem 1).duration = 250 ∧ (emptyWorld.mem 1).isEnabled = true ∧
    60 < 10 + 250 ∧ 10 + 250 ≤ 270 ∧
    finishCount 0 (polls [60, 270] (add 10 10 1 emptyWorld)).calls = 0 ∧
    ((polls [60, 270] (add 10 10 1 emptyWorld)).mem 1).isEnabled = true := by
  decide

/-- C5, amended (the lifespan is measured from the first poll, not from
registration).  Register with `add` a fresh event (`firstCalled = 0`, not yet in
any slot) that is enabled and has bounded lifespan `D >= 0`, then poll, the
first poll being at a reading `t₁ > 0` with `t₁ + D` below `2 ^ 32`.  Then
`finish()` is called for the event's slot exactly once, at the first poll whose
reading satisfies `now >= t₁ + D`: before that poll the count of `finish()`
calls is unchanged and the event is enabled; after that poll, and after any
further polls, the count is one higher and the event is disabled.  As long as
no poll reaches `t₁ + D`, `finish()` is not called and the event stays
enabled.  The registration readings play no part. -/
theorem C5_lifespan_from_first_poll (w : World) (T₁ T₂ e D t₁ : Nat)
    (hn : w.timerEvents.numberOfEvents < MAX_NUMBER_OF_EVENTS)
    (hfresh : ∀ j, j < w.timerEvents.numberOfEvents → w.timerEvents.events j ≠ e)
    (hen : (w.mem e).isEnabled = true)
    (hD : (w.mem e).duration = (D : Int))
    (hfc : (w.mem e).firstCalled = 0)
    (ht : 0 < t₁) (hw : t₁ + D < ULONG_MOD) :
    (∀ front t back, (front ++ t :: back).head? = some t₁ →
      (∀ x ∈ front, x < t₁ + D) → t₁ + D ≤ t →
        finishCount w.timerEvents.numberOfEvents (polls front (add T₁ T₂ e w)).calls =
          finishCount w.timerEvents.numberOfEvents w.calls ∧
        ((polls front (add T₁ T₂ e w)).mem e).isEnabled = true ∧
        finishCount w.timerEvents.numberOfEvents
            (polls (front ++ [t]) (add T₁ T₂ e w)).calls =
          finishCount w.timerEvents.numberOfEvents w.calls + 1 ∧
        ((polls (front ++ [t]) (add T₁ T₂ e w)).mem e).isEnabled = false ∧
        finishCount w.timerEvents.numberOfEvents
            (polls (front ++ t :: back) (add T₁ T₂ e w)).calls =
          finishCount w.timerEvents.numberOfEvents w.calls + 1 ∧
        ((polls (front ++ t :: back) (add T₁ T₂ e w)).mem e).isEnabled = false) ∧
    (∀ ts, ts.head? = some t₁ → (∀ x ∈ ts, x < t₁ + D) →
        finishCount w.timerEvents.numberOfEvents (polls ts (add T₁ T₂ e w)).calls =
          finishCount w.timerEvents.numberOfEvents w.calls ∧
        ((polls ts (add T₁ T₂ e w)).mem e).isEnabled = true) := by
  have key := fun rest => polls_after_add w T₁ T₂ e D t₁ rest hn hfresh hen hD hfc ht hw
  have quiet : ∀ ts : List Nat, ts.head? = some t₁ → (∀ x ∈ ts, x < t₁ + D) →
      finishCount w.timerEvents.numberOfEvents (polls ts (add T₁ T₂ e w)).calls =
        finishCount w.timerEvents.numberOfEvents w.calls ∧
      ((polls ts (add T₁ T₂ e w)).mem e).isEnabled = true := by
    intro ts hh hall
    cases ts with
    | nil => simp at hh
    | cons a rest =>
      simp only [List.head?_cons, Option.some.injEq] at hh
      subst hh
      obtain ⟨k1, k2⟩ := key rest
      have hne : ¬ ∃ x ∈ a :: rest, a + D ≤ x :=
        fun ⟨x, hx, hle⟩ => absurd (hall x hx) (Nat.not_lt.mpr hle)
      rw [if_neg hne] at k1
      rw [decide_eq_true hall] at k2
      exact ⟨k1, k2⟩
  have loud : ∀ ts : List Nat, ts.head? = some t₁ → (∃ x ∈ ts, t₁ + D ≤ x) →
      finishCount w.timerEvents.numberOfEvents (polls ts (add T₁ T₂ e w)).calls =
        finishCount w.timerEvents.numberOfEvents w.calls + 1 ∧
      ((polls ts (add T₁ T₂ e w)).mem e).isEnabled = false := by
    intro ts hh hex
    cases ts with
    | nil => simp at hh
    | cons a rest =>
      simp only [List.head?_cons, Option.some.injEq] at hh
      subst hh
      obtain ⟨k1, k2⟩ := key rest
      have hnall : ¬ ∀ x ∈ a :: rest, x < a + D := by
        obtain ⟨x, hx, hle⟩ := hex
        exact fun h => absurd (h x hx) (Nat.not_lt.mpr hle)
      rw [if_pos hex] at k1
      rw [decide_eq_false hnall] at k2
      exact ⟨k1, k2⟩
  refine ⟨?_, quiet⟩
  intro front t back hh hall hle
  have h1 : (front ++ [t]).head? = some t₁ := by
    cases front with
    | nil => simpa using hh
    | cons a f => simpa using hh
  obtain ⟨b1, b2⟩ := loud (front ++ [t]) h1 ⟨t, by simp, hle⟩
  obtain ⟨c1, c2⟩ := loud (front ++ t :: back) hh ⟨t, by simp, hle⟩
  refine ⟨?_, ?_, b1, b2, c1, c2⟩
  · cases front with
    | nil =>
      rw [polls_nil]
      unfold add
      split_ifs <;> rfl
    | cons a f => exact (quiet (a :: f) (by simpa using hh) hall).1
  · cases front with
    | nil =>
      rw [polls_nil]
      unfold add
      split_ifs
      · exact hen
      · simp [hen]
    | cons a f => exact (quiet (a :: f) (by simpa using hh) hall).2

/-- C5 (amended) at a concrete input: event `B` registered at reading `10`
after `A`, first polled at `60`; `finish()` comes at the poll at `310`. -/
theorem C5_lifespan_from_first_poll_witness :
    ((add 0 0 0 emptyWorld).timerEvents.numberOfEvents < MAX_NUMBER_OF_EVENTS ∧
      ((add 0 0 0 emptyWorld).mem 1).isEnabled = true ∧
      ((add 0 0 0 emptyWorld).mem 1).firstCalled = 0 ∧
      60 + 250 < ULONG_MOD) ∧
    finishCount 1 (polls [60, 270] (add 10 10 1 (add 0 0 0 emptyWorld))).calls = 0 ∧
    finishCount 1 (polls ([60, 270] ++ [310]) (add 10 10 1 (add 0 0 0 emptyWorld))).calls
      = 1 ∧
    ((polls ([60, 270] ++ [310]) (add 10 10 1 (add 0 0 0 emptyWorld))).mem 1).isEnabled
      = false :=
  ⟨by decide,
    ((C5_lifespan_from_first_poll (add 0 0 0 emptyWorld) 10 10 1 250 60 (by decide)
      (by decide) (by decide) (by decide) (by decide) (by decide) (by decide)).1
      [60, 270] 310 [400] (by decide) (by decide) (by decide)).1,
    ((C5_lifespan_from_first_poll (add 0 0 0 emptyWorld) 10 10 1 250 60 (by decide)
      (by decide) (by decide) (by decide) (by decide) (by decide) (by decide)).1
      [60, 270] 310 [400] (by decide) (by decide) (by decide)).2.2.1,
    ((C5_lifespan_from_first_poll (add 0 0 0 emptyWorld) 10 10 1 250 60 (by decide)
      (by decide) (by decide) (by decide) (by decide) (by decide) (by decide)).1
      [60, 270] 310 [400] (by decide) (by decide) (by decide)).2.2.2.1⟩

/-! ## C6: disabling and re-enabling -/

/-- C6 fails as stated: event `B` (duration `250`) is polled at `10`, disabled,
polled at `100`, enabled and polled at `200`; `durations[1]` is then `260`, not
`200 + 250`. -/
theorem C6_counterexample :
    ((tasks 10 demoWorld).mem 1).isEnabled = true ∧
    (tasks 200 (callEnable 1 (polls [100] (callDisable 1 (tasks 10 demoWorld))))).timerEvents.durations 1
      = 260 ∧
    (tasks 200 (callEnable 1 (polls [100] (callDisable 1 (tasks 10 demoWorld))))).timerEvents.durations 1
      ≠ 200 + 250 := by
  decide

/-- C6, amended (disabling and re-enabling does not restart the lifespan
window).  Take a registered, enabled, bounded event (duration `D > 0`,
`firstCalled = 0`) in a slot of its own, poll it at a reading `t₀ > 0`
(`t₀ + D` below `2 ^ 32`), call `disable()`, poll any number of times, call
`enable()` and poll at reading `t`.  The first poll leaves the event enabled
with `durations[slot] = t₀ + D`; the polls while it is disabled change no field
of the event, make no call of `execute()` or `finish()` for the slot and leave
`timeouts[slot]` and `durations[slot]` unchanged; and after the poll that
follows `enable()` the deadline is still `durations[slot] = t₀ + D`, counted
from the original start. -/
theorem C6_reenable_keeps_deadline (w : World) (i D t₀ t : Nat) (ts : List Nat)
    (hi : i < w.timerEvents.numberOfEvents) (hu : unshared i w)
    (hen : (w.mem (w.timerEvents.events i)).isEnabled = true)
    (hD : (w.mem (w.timerEvents.events i)).duration = (D : Int))
    (hfc : (w.mem (w.timerEvents.events i)).firstCalled = 0)
    (ht : 0 < t₀) (hpos : 0 < D) (hw : t₀ + D < ULONG_MOD) :
    ((tasks t₀ w).mem (w.timerEvents.events i)).isEnabled = true ∧
    (tasks t₀ w).timerEvents.durations i = t₀ + D ∧
    (polls ts (callDisable (w.timerEvents.events i) (tasks t₀ w))).mem (w.timerEvents.events i) =
      (callDisable (w.timerEvents.events i) (tasks t₀ w)).mem (w.timerEvents.events i) ∧
    executeCount i (polls ts (callDisable (w.timerEvents.events i) (tasks t₀ w))).calls =
      executeCount i (tasks t₀ w).calls ∧
    finishCount i (polls ts (callDisable (w.timerEvents.events i) (tasks t₀ w))).calls =
      finishCount i (tasks t₀ w).calls ∧
    (polls ts (callDisable (w.timerEvents.events i) (tasks t₀ w))).timerEvents.timeouts i =
      (tasks t₀ w).timerEvents.timeouts i ∧
    (polls ts (callDisable (w.timerEvents.events i) (tasks t₀ w))).timerEvents.durations i =
      t₀ + D ∧
    (tasks t (callEnable (w.timerEvents.events i)
      (polls ts (callDisable (w.timerEvents.events i) (tasks t₀ w))))).timerEvents.durations i =
      t₀ + D := by
  have hb : (w.mem (w.timerEvents.events i)).duration ≠ -1 := by
    rw [hD]; omega
  have hdl : deadline t₀ i w = t₀ + D := by
    rw [deadline_eq, if_pos hfc, hD, addULong_nat hw]
  have hm := tasks_mem_unshared t₀ hi hu
  have hd := tasks_durations_unshared t₀ hi hu
  rw [tasksSlot_mem_self, if_pos ⟨hen, hb⟩, hdl, if_neg (by omega), if_pos hfc] at hm
  rw [tasksSlot_durations_self, if_pos ⟨hen, hb, hfc⟩, hD, addULong_nat hw] at hd
  -- the state after `disable()`
  have hev2 : (callDisable (w.timerEvents.events i) (tasks t₀ w)).timerEvents.events =
      w.timerEvents.events := tasks_events t₀ w
  have hn2 : (callDisable (w.timerEvents.events i) (tasks t₀ w)).timerEvents.numberOfEvents =
      w.timerEvents.numberOfEvents := tasks_numberOfEvents t₀ w
  have hmem2 : (callDisable (w.timerEvents.events i) (tasks t₀ w)).mem (w.timerEvents.events i) =
      ((tasks t₀ w).mem (w.timerEvents.events i)).disable := by
    unfold callDisable; simp
  obtain ⟨a1, a2, a3, a4, a5⟩ :=
    polls_disabled ts (callDisable (w.timerEvents.events i) (tasks t₀ w)) i
      (by rw [hn2]; exact hi) (by rw [hev2, hmem2]; rfl)
  rw [hev2] at a1
  have hd3 : (polls ts (callDisable (w.timerEvents.events i) (tasks t₀ w))).timerEvents.durations i
      = t₀ + D := a5.trans hd
  -- the state after `enable()`
  have hev4 : (callEnable (w.timerEvents.events i)
      (polls ts (callDisable (w.timerEvents.events i) (tasks t₀ w)))).timerEvents.events =
      w.timerEvents.events := (polls_events ts _).trans hev2
  have hn4 : (callEnable (w.timerEvents.events i)
      (polls ts (callDisable (w.timerEvents.events i) (tasks t₀ w)))).timerEvents.numberOfEvents =
      w.timerEvents.numberOfEvents := (polls_numberOfEvents ts _).trans hn2
  have hfc4 : ((callEnable (w.timerEvents.events i)
      (polls ts (callDisable (w.timerEvents.events i) (tasks t₀ w)))).mem
        (w.timerEvents.events i)).firstCalled = t₀ := by
    unfold callEnable
    simp only [Function.update_same]
    rw [a1, hmem2, hm]
    rfl
  have hd5 := tasks_durations_unshared t (w := callEnable (w.timerEvents.events i)
      (polls ts (callDisable (w.timerEvents.events i) (tasks t₀ w)))) (i := i)
      (by rw [hn4]; exact hi) (unshared_of_eq hn4 hev4 hu)
  rw [tasksSlot_durations_self, hev4, if_neg (fun h => by rw [hfc4] at h; omega)] at hd5
  refine ⟨by rw [hm]; exact hen, hd, a1, a3, a2, a4, hd3, ?_⟩
  rw [hd5]
  exact hd3

/-- C6 (amended) at a concrete input: event `B` polled at `10`, disabled,
polled at `100`, enabled and polled at `200`. -/
theorem C6_reenable_keeps_deadline_witness :
    (1 < demoWorld.timerEvents.numberOfEvents ∧ unshared 1 demoWorld ∧
      (demoWorld.mem (demoWorld.timerEvents.events 1)).isEnabled = true ∧
      (demoWorld.mem (demoWorld.timerEvents.events 1)).firstCalled = 0) ∧
    (tasks 200 (callEnable (demoWorld.timerEvents.events 1)
      (polls [100] (callDisable (demoWorld.timerEvents.events 1)
        (tasks 10 demoWorld))))).timerEvents.durations 1 = 10 + 250 :=
  ⟨by decide,
    (C6_reenable_keeps_deadline demoWorld 1 250 10 200 [100] (by decide) (by decide)
      (by decide) (by decide) (by decide) (by decide) (by decide)
      (by decide)).2.2.2.2.2.2.2⟩

/-! ## C7: the worked scenario -/

/-- C7 fails as stated: in the worked scenario `A.execute` is called four times
over the seven polls, not three, the first time at the poll at `t = 0`, and
`B.execute` has been called once at the poll at `t = 0` and six times by the
end of the poll at `t = 250`, so it is not called three times in all. -/
theorem C7_counterexample :
    executeCount 0 (scenarioAfter 1).calls = 1 ∧
    executeCount 0 (scenarioAfter 7).calls = 4 ∧
    executeCount 0 (scenarioAfter 7).calls ≠ 3 ∧
    executeCount 1 (scenarioAfter 1).calls = 1 ∧
    executeCount 1 (scenarioAfter 6).calls = 6 ∧
    executeCount 1 (scenarioAfter 7).calls ≠ 3 := by
  decide

/-- C7, amended (worked scenario).  From an empty scheduler with an empty call
log, enabled events `A(period = 100, duration = -1)` at address `a` and
`B(period = 50, duration = 250, firstCalled = 0)` at another address `b` are
registered in that order at clock reading `0`, and `tasks` is called at the
readings `0, 50, 100, 150, 200, 250, 300`.  `A` gets slot `0` and `B` slot `1`.
The lists give each quantity before the first poll and after each poll.
`A.execute` is called four times over the seven polls (at `0, 100, 200, 300`).
`B.execute` is called once at each of the six polls at
`0, 50, 100, 150, 200, 250`.  `B.finish` is not called before the poll at
`t = 250`, where `B` is still enabled when the poll starts, and it has been
called exactly once when the seven polls are over, when `B` is disabled.
`A.finish` is never called and `A` stays enabled.  Nothing is said about which
of the last two polls calls `B.finish`, nor about `B.execute` at `t = 300`. -/
theorem C7_scenario (w : World) (a b : Nat) (hab : a ≠ b)
    (h0 : w.timerEvents.numberOfEvents = 0) (hlog : w.calls = [])
    (hA : (w.mem a).period = 100 ∧ (w.mem a).duration = -1 ∧ (w.mem a).isEnabled = true)
    (hB : (w.mem b).period = 50 ∧ (w.mem b).duration = 250 ∧ (w.mem b).isEnabled = true ∧
      (w.mem b).firstCalled = 0) :
    (add 0 0 b (add 0 0 a w)).timerEvents.numberOfEvents = 2 ∧
    (add 0 0 b (add 0 0 a w)).timerEvents.events 0 = a ∧
    (add 0 0 b (add 0 0 a w)).timerEvents.events 1 = b ∧
    (List.range 8).map (fun k => executeCount 0
      (polls (scenarioReadings.take k) (add 0 0 b (add 0 0 a w))).calls) =
        [0, 1, 1, 2, 2, 3, 3, 4] ∧
    (List.range 7).map (fun k => executeCount 1
      (polls (scenarioReadings.take k) (add 0 0 b (add 0 0 a w))).calls) =
        [0, 1, 2, 3, 4, 5, 6] ∧
    (List.range 6).map (fun k => finishCount 1
      (polls (scenarioReadings.take k) (add 0 0 b (add 0 0 a w))).calls) =
        [0, 0, 0, 0, 0, 0] ∧
    finishCount 1 (polls scenarioReadings (add 0 0 b (add 0 0 a w))).calls = 1 ∧
    (List.range 8).map (fun k => finishCount 0
      (polls (scenarioReadings.take k) (add 0 0 b (add 0 0 a w))).calls) =
        [0, 0, 0, 0, 0, 0, 0, 0] ∧
    (List.range 6).map (fun k =>
      ((polls (scenarioReadings.take k) (add 0 0 b (add 0 0 a w))).mem b).isEnabled) =
        [true, true, true, true, true, true] ∧
    ((polls scenarioReadings (add 0 0 b (add 0 0 a w))).mem b).isEnabled = false ∧
    (List.range 8).map (fun k =>
      ((polls (scenarioReadings.take k) (add 0 0 b (add 0 0 a w))).mem a).isEnabled) =
        [true, true, true, true, true, true, true, true] := by
  have hr0 : w.timerEvents.numberOfEvents < MAX_NUMBER_OF_EVENTS := by
    rw [h0]; decide
  have hn1 : (add 0 0 a w).timerEvents.numberOfEvents = 1 := by
    rw [add_numberOfEvents 0 0 a hr0, h0]
  have hr1 : (add 0 0 a w).timerEvents.numberOfEvents < MAX_NUMBER_OF_EVENTS := by
    rw [hn1]; decide
  have hn2 : (add 0 0 b (add 0 0 a w)).timerEvents.numberOfEvents = 2 := by
    rw [add_numberOfEvents 0 0 b hr1, hn1]
  have he0' : (add 0 0 a w).timerEvents.events 0 = a := by
    have := add_events_new 0 0 a hr0
    rwa [h0] at this
  have he0 : (add 0 0 b (add 0 0 a w)).timerEvents.events 0 = a := by
    rw [add_events_old 0 0 b (by rw [hn1]; decide), he0']
  have he1 : (add 0 0 b (add 0 0 a w)).timerEvents.events 1 = b := by
    have := add_events_new 0 0 b hr1
    rwa [hn1] at this
  have hu0 : unshared 0 (add 0 0 b (add 0 0 a w)) := by
    apply add_unshared_old 0 0 b (by rw [hn1]; decide) (by rw [he0']; exact hab)
    have := add_unshared 0 0 a hr0 (fun j hj => by rw [h0] at hj; omega)
    rwa [h0] at this
  have hu1 : unshared 1 (add 0 0 b (add 0 0 a w)) := by
    have := add_unshared 0 0 b hr1 (fun j hj => by
      rw [hn1] at hj
      have hj0 : j = 0 := by omega
      rw [hj0, he0']; exact hab)
    rwa [hn1] at this
  have hv0 : slotView 0 (add 0 0 b (add 0 0 a w)) =
      { event := { w.mem a with index := 0 }, timeout := 0, stop := 0,
        executes := 0, finishes := 0 } := by
    rw [slotView_add_old 0 0 b (by rw [hn1]; decide) (by rw [he0']; exact hab)]
    have := slotView_add_new 0 0 a hr0
    rw [h0, hlog] at this
    exact this
  have hv1 : slotView 1 (add 0 0 b (add 0 0 a w)) =
      { event := { w.mem b with index := 1 }, timeout := 0, stop := 0,
        executes := 0, finishes := 0 } := by
    have := slotView_add_new 0 0 b hr1
    rw [hn1, add_mem_other 0 0 a hab.symm] at this
    rw [this]
    have hc : (add 0 0 a w).calls = [] := by
      rw [add_of_room 0 0 a hr0]; exact hlog
    rw [hc]
    rfl
  have run0 := fun ts => slotView_polls ts (add 0 0 b (add 0 0 a w)) (i := 0)
    (by rw [hn2]; decide) hu0
  have run1 := fun ts => slotView_polls ts (add 0 0 b (add 0 0 a w)) (i := 1)
    (by rw [hn2]; decide) hu1
  rw [hv0] at run0
  rw [hv1] at run1
  have hevA : ∀ ts, (polls ts (add 0 0 b (add 0 0 a w))).mem a =
      (slotView 0 (polls ts (add 0 0 b (add 0 0 a w)))).event := by
    intro ts; unfold slotView; rw [polls_events, he0]
  have hevB : ∀ ts, (polls ts (add 0 0 b (add 0 0 a w))).mem b =
      (slotView 1 (polls ts (add 0 0 b (add 0 0 a w)))).event := by
    intro ts; unfold slotView; rw [polls_events, he1]
  have hx0 : ∀ ts, executeCount 0 (polls ts (add 0 0 b (add 0 0 a w))).calls =
      (slotView 0 (polls ts (add 0 0 b (add 0 0 a w)))).executes := fun _ => rfl
  have hx1 : ∀ ts, executeCount 1 (polls ts (add 0 0 b (add 0 0 a w))).calls =
      (slotView 1 (polls ts (add 0 0 b (add 0 0 a w)))).executes := fun _ => rfl
  have hf0 : ∀ ts, finishCount 0 (polls ts (add 0 0 b (add 0 0 a w))).calls =
      (slotView 0 (polls ts (add 0 0 b (add 0 0 a w)))).finishes := fun _ => rfl
  have hf1 : ∀ ts, finishCount 1 (polls ts (add 0 0 b (add 0 0 a w))).calls =
      (slotView 1 (polls ts (add 0 0 b (add 0 0 a w)))).finishes := fun _ => rfl
  simp only [hevA, hevB, hx0, hx1, hf0, hf1, run0, run1]
  obtain ⟨hA1, hA2, hA3⟩ := hA
  obtain ⟨hB1, hB2, hB3, hB4⟩ := hB
  generalize w.mem a = A at *
  generalize w.mem b = B at *
  cases A
  cases B
  simp only [] at hA1 hA2 hA3 hB1 hB2 hB3 hB4
  subst hA1 hA2 hA3 hB1 hB2 hB3 hB4
  refine ⟨hn2, he0, he1, ?_, ?_, ?_, ?_, ?_, ?_, ?_, ?_⟩ <;>
    simp [scenarioReadings, stepView, addUL, addULong, ULONG_MOD, TimerEvent.disable, List.range,
      List.range.loop]

/-- C7 (amended) at a concrete input: the events `A` and `B` at the addresses
`0` and `1`. -/
theorem C7_scenario_witness :
    (emptyWorld.timerEvents.numberOfEvents = 0 ∧ emptyWorld.calls = [] ∧
      (emptyWorld.mem 0).period = 100 ∧ (emptyWorld.mem 1).period = 50) ∧
    (List.range 8).map (fun k => executeCount 0
      (polls (scenarioReadings.take k) (add 0 0 1 (add 0 0 0 emptyWorld))).calls) =
        [0, 1, 1, 2, 2, 3, 3, 4] ∧
    (List.range 7).map (fun k => executeCount 1
      (polls (scenarioReadings.take k) (add 0 0 1 (add 0 0 0 emptyWorld))).calls) =
        [0, 1, 2, 3, 4, 5, 6] ∧
    finishCount 1 (polls scenarioReadings (add 0 0 1 (add 0 0 0 emptyWorld))).calls = 1 :=
  ⟨by decide,
    (C7_scenario emptyWorld 0 1 (by decide) (by decide) (by decide) (by decide)
      (by decide)).2.2.2.1,
    (C7_scenario emptyWorld 0 1 (by decide) (by decide) (by decide) (by decide)
      (by decide)).2.2.2.2.1,
    (C7_scenario emptyWorld 0 1 (by decide) (by decide) (by decide) (by decide)
      (by decide)).2.2.2.2.2.2.1⟩

/-! ## C8: registration at capacity -/

/-- C8 (registration at capacity is a no-op).  When
`numberOfEvents == MAX_NUMBER_OF_EVENTS`, `add` returns the state unchanged:
`numberOfEvents`, `events[]`, `timeouts[]` and `durations[]` are as before and
so is the index of the event, so a fresh event keeps `-1`. -/
theorem C8_add_at_capacity (w : World) (t₁ t₂ e : Nat)
    (h : w.timerEvents.numberOfEvents = MAX_NUMBER_OF_EVENTS) :
    add t₁ t₂ e w = w ∧
    (add t₁ t₂ e w).timerEvents.numberOfEvents = MAX_NUMBER_OF_EVENTS ∧
    (add t₁ t₂ e w).timerEvents.events = w.timerEvents.events ∧
    (add t₁ t₂ e w).timerEvents.timeouts = w.timerEvents.timeouts ∧
    (add t₁ t₂ e w).timerEvents.durations = w.timerEvents.durations ∧
    ((add t₁ t₂ e w).mem e).index = (w.mem e).index ∧
    ((w.mem e).index = -1 → ((add t₁ t₂ e w).mem e).index = -1) := by
  have h0 : add t₁ t₂ e w = w := by
    unfold add
    rw [if_pos (by rw [h])]
  rw [h0]
  exact ⟨rfl, h, rfl, rfl, rfl, rfl, fun h => h⟩

set_option maxRecDepth 8000 in
/-- C8 at a concrete input: a thirty-third registration. -/
theorem C8_add_at_capacity_witness :
    fullWorld.timerEvents.numberOfEvents = MAX_NUMBER_OF_EVENTS ∧
    add 7 7 40 fullWorld = fullWorld ∧ ((add 7 7 40 fullWorld).mem 40).index = -1 :=
  ⟨by decide, (C8_add_at_capacity fullWorld 7 7 40 (by decide)).1,
    (C8_add_at_capacity fullWorld 7 7 40 (by decide)).2.2.2.2.2.2 (by decide)⟩

/-! ## C9: successful registration -/

/-- C9 (successful registration).  When `numberOfEvents = n < 32` and the clock
reads `now` during the call, `add(e)` leaves `numberOfEvents = n + 1`,
`events[n] = e`, `timeouts[n] = now`, `durations[n] = now` and `e.index = n`,
and for every slot `j < n` the stored reference, `timeouts[j]` and
`durations[j]` are unchanged. -/
theorem C9_add_registers (w : World) (now e : Nat)
    (h : w.timerEvents.numberOfEvents < MAX_NUMBER_OF_EVENTS) :
    (add now now e w).timerEvents.numberOfEvents = w.timerEvents.numberOfEvents + 1 ∧
    (add now now e w).timerEvents.events w.timerEvents.numberOfEvents = e ∧
    (add now now e w).timerEvents.timeouts w.timerEvents.numberOfEvents = now ∧
    (add now now e w).timerEvents.durations w.timerEvents.numberOfEvents = now ∧
    ((add now now e w).mem e).index = (w.timerEvents.numberOfEvents : Int) ∧
    (∀ j, j < w.timerEvents.numberOfEvents →
      (add now now e w).timerEvents.events j = w.timerEvents.events j ∧
      (add now now e w).timerEvents.timeouts j = w.timerEvents.timeouts j ∧
      (add now now e w).timerEvents.durations j = w.timerEvents.durations j) := by
  rw [add_of_room now now e h]
  refine ⟨rfl, by simp, by simp, by simp, by simp, fun j hj => ?_⟩
  have hne : j ≠ w.timerEvents.numberOfEvents := Nat.ne_of_lt hj
  simp [Function.update_noteq hne]

/-- C9 at a concrete input: a third registration, at reading `5`. -/
theorem C9_add_registers_witness :
    demoWorld.timerEvents.numberOfEvents < MAX_NUMBER_OF_EVENTS ∧
    (add 5 5 7 demoWorld).timerEvents.numberOfEvents = 3 ∧
    (add 5 5 7 demoWorld).timerEvents.events 2 = 7 ∧
    ((add 5 5 7 demoWorld).mem 7).index = 2 :=
  ⟨by decide, (C9_add_registers demoWorld 5 7 (by decide)).1,
    (C9_add_registers demoWorld 5 7 (by decide)).2.1,
    (C9_add_registers demoWorld 5 7 (by decide)).2.2.2.2.1⟩

/-! ## C10: update -/

/-- C10 (`update` keeps the schedule).  When the index `S` of event `e` is a
slot assigned by `add` (`0 <= S < numberOfEvents <= 32`), `update(e)` succeeds,
sets `events[S] = e` and leaves `timeouts[]`, `durations[]`, `numberOfEvents`,
the reference in every other slot, the event objects and the call log
unchanged. -/
theorem C10_update_keeps_schedule (w : World) (e S : Nat)
    (hidx : (w.mem e).index = (S : Int)) (hS : S < w.timerEvents.numberOfEvents)
    (hcap : w.timerEvents.numberOfEvents ≤ MAX_NUMBER_OF_EVENTS) :
    ∃ w', update e w = some w' ∧
      w'.timerEvents.events S = e ∧
      w'.timerEvents.timeouts = w.timerEvents.timeouts ∧
      w'.timerEvents.durations = w.timerEvents.durations ∧
      w'.timerEvents.numberOfEvents = w.timerEvents.numberOfEvents ∧
      (∀ j, j ≠ S → w'.timerEvents.events j = w.timerEvents.events j) ∧
      w'.mem = w.mem ∧ w'.calls = w.calls := by
  have h32 : (S : Int) < (MAX_NUMBER_OF_EVENTS : Int) := by
    exact_mod_cast Nat.lt_of_lt_of_le hS hcap
  unfold update
  rw [hidx, if_neg (by omega), if_pos ⟨Int.natCast_nonneg S, h32⟩]
  refine ⟨_, rfl, by simp, rfl, rfl, rfl, fun j hj => ?_, rfl, rfl⟩
  simp [Function.update_noteq hj]

/-- C10 at a concrete input: `update(&B)` after `B` was registered in slot `1`. -/
theorem C10_update_keeps_schedule_witness :
    ((demoWorld.mem 1).index = ((1 : Nat) : Int) ∧
      1 < demoWorld.timerEvents.numberOfEvents ∧
      demoWorld.timerEvents.numberOfEvents ≤ MAX_NUMBER_OF_EVENTS) ∧
    ∃ w', update 1 demoWorld = some w' ∧ w'.timerEvents.events 1 = 1 ∧
      w'.timerEvents.timeouts = demoWorld.timerEvents.timeouts :=
  ⟨by decide,
    (C10_update_keeps_schedule demoWorld 1 1 (by decide) (by decide) (by decide)).elim
      (fun w' h => ⟨w', h.1, h.2.1, h.2.2.1⟩)⟩

/-! ## C11: update on an unregistered event -/

/-- C11 (`update` on an unregistered event is a no-op).  When the index of the
event is the unassigned value `-1`, `update` returns the state as it is:
`numberOfEvents`, `events[]`, `timeouts[]` and `durations[]` are unchanged. -/
theorem C11_update_unregistered (w : World) (e : Nat) (h : (w.mem e).index = -1) :
    update e w = some w := by
  unfold update
  rw [if_pos h]

/-- C11 at a concrete input: event `B` before it is registered. -/
theorem C11_update_unregistered_witness :
    (emptyWorld.mem 1).index = -1 ∧ update 1 emptyWorld = some emptyWorld :=
  ⟨by decide, C11_update_unregistered emptyWorld 1 (by decide)⟩

/-! ## C12: expiry and fire in the same poll -/

theorem tasksSlot_slotCalls_other (time : Nat) {i j : Nat} (h : i ≠ j) (w : World) :
    slotCalls i (tasksSlot time j w).calls = slotCalls i w.calls := by
  unfold tasksSlot fire expire latch slotCalls
  simp only []
  split_ifs <;> simp [List.filter_append, Ne.symm h]

theorem tasksOver_slotCalls_other (time : Nat) {i : Nat} (l : List Nat) (h : i ∉ l)
    (w : World) : slotCalls i (tasksOver time l w).calls = slotCalls i w.calls := by
  induction l generalizing w with
  | nil => rfl
  | cons j l ih =>
    rw [tasksOver_cons, ih (fun hm => h (List.mem_cons_of_mem _ hm)),
      tasksSlot_slotCalls_other time (fun e => h (by simp [e]))]

theorem tasks_slotCalls (time : Nat) (w : World) {i : Nat}
    (h : i < w.timerEvents.numberOfEvents) :
    slotCalls i (tasks time w).calls = slotCalls i (reached time (i + 1) w).calls := by
  rw [tasks_split time w h]
  exact tasksOver_slotCalls_other time _ (not_mem_range'_succ i _) _

theorem reached_slotCalls (time i : Nat) (w : World) :
    slotCalls i (reached time i w).calls = slotCalls i w.calls :=
  tasksOver_slotCalls_other time _ (not_mem_range_self' i) w

/-- The calls the loop body makes for its own slot when the event expires and
fires in the same pass: `finish()` first, then `execute()`. -/
theorem tasksSlot_slotCalls_both (time i : Nat) (w : World)
    (hen : (w.mem (w.timerEvents.events i)).isEnabled = true)
    (hb : (w.mem (w.timerEvents.events i)).duration ≠ -1)
    (hx : deadline time i w ≤ time) (hf : w.timerEvents.timeouts i ≤ time) :
    slotCalls i (tasksSlot time i w).calls =
      slotCalls i w.calls ++
        [Call.finish i (w.timerEvents.events i) (w.mem (w.timerEvents.events i)).finish,
         Call.execute i (w.timerEvents.events i) (w.mem (w.timerEvents.events i)).execute] := by
  rw [deadline_eq] at hx
  unfold tasksSlot fire expire latch TimerEvent.disable slotCalls TimerEvent.finish
    TimerEvent.execute
  simp only []
  split_ifs at hx ⊢ <;> simp_all [List.filter_append]

/-- C12 (expiry and fire in the same poll).  Let slot `i` be registered and its
event be enabled and bounded when the slot is reached.  If both
`now >= durations[i]` (after the latch step) and `now >= timeouts[i]` hold, the
calls the poll makes for the slot are `finish()` and then `execute()`, in that
order and each exactly once, `timeouts[i]` becomes `now + period`, and when
`tasks` returns the event is disabled with `firstCalled == 0`. -/
theorem C12_expire_then_fire (w : World) (now i : Nat)
    (hi : i < w.timerEvents.numberOfEvents)
    (hen : ((reached now i w).mem (w.timerEvents.events i)).isEnabled = true)
    (hb : (w.mem (w.timerEvents.events i)).duration ≠ -1)
    (hx : deadline now i (reached now i w) ≤ now)
    (hf : w.timerEvents.timeouts i ≤ now) :
    slotCalls i (tasks now w).calls =
      slotCalls i w.calls ++
        [Call.finish i (w.timerEvents.events i) (w.mem (w.timerEvents.events i)).finish,
         Call.execute i (w.timerEvents.events i) (w.mem (w.timerEvents.events i)).execute] ∧
    finishCount i (tasks now w).calls = finishCount i w.calls + 1 ∧
    executeCount i (tasks now w).calls = executeCount i w.calls + 1 ∧
    (tasks now w).timerEvents.timeouts i =
      addUL now (w.mem (w.timerEvents.events i)).period ∧
    ((tasks now w).mem (w.timerEvents.events i)).isEnabled = false ∧
    ((tasks now w).mem (w.timerEvents.events i)).firstCalled = 0 := by
  have hcfg := reached_config now i (w.timerEvents.events i) w
  have hb' : ((reached now i w).mem ((reached now i w).timerEvents.events i)).duration ≠ -1 := by
    rw [reached_events, hcfg.2.2.2.2.1]; exact hb
  have hen' : ((reached now i w).mem ((reached now i w).timerEvents.events i)).isEnabled
      = true := by
    rw [reached_events]; exact hen
  have hf' : (reached now i w).timerEvents.timeouts i ≤ now := by
    rw [reached_timeouts]; exact hf
  have hs := tasks_slotCalls now w hi
  rw [reached_succ, tasksSlot_slotCalls_both now i _ hen' hb' hx hf', reached_slotCalls,
    reached_events] at hs
  have hfin : ((reached now i w).mem (w.timerEvents.events i)).finish =
      (w.mem (w.timerEvents.events i)).finish := hcfg.2.2.2.1
  have hexe : ((reached now i w).mem (w.timerEvents.events i)).execute =
      (w.mem (w.timerEvents.events i)).execute := hcfg.2.2.1
  rw [hfin, hexe] at hs
  have hc := tasks_finishCount now w hi
  rw [reached_succ, tasksSlot_finishCount_self, reached_finishCount,
    if_pos ⟨hen', hb', hx⟩] at hc
  have he := tasks_executeCount now w hi
  rw [reached_succ, tasksSlot_executeCount_self, reached_executeCount,
    if_pos ⟨hen', hf'⟩] at he
  have ht := tasks_timeouts now w hi
  rw [reached_succ, tasksSlot_timeouts_self, if_pos ⟨hen', hf'⟩, reached_events,
    hcfg.2.1] at ht
  have hm := tasksSlot_mem_self now i (reached now i w)
  rw [← reached_succ, if_pos ⟨hen', hb'⟩, if_pos hx, reached_events] at hm
  have h1 : ((reached now (i + 1) w).mem (w.timerEvents.events i)).isEnabled = false := by
    rw [hm]
  have h2 : ((reached now (i + 1) w).mem (w.timerEvents.events i)).firstCalled = 0 := by
    rw [hm]
  rw [tasks_mem_of_disabled now w hi h1]
  exact ⟨hs, hc, he, ht, h1, h2⟩

/-- C12 at a concrete input: event `B` of the worked scenario at the poll at
reading `300`. -/
theorem C12_expire_then_fire_witness :
    (1 < (scenarioAfter 6).timerEvents.numberOfEvents ∧
      ((reached 300 1 (scenarioAfter 6)).mem
        ((scenarioAfter 6).timerEvents.events 1)).isEnabled = true ∧
      deadline 300 1 (reached 300 1 (scenarioAfter 6)) ≤ 300 ∧
      (scenarioAfter 6).timerEvents.timeouts 1 ≤ 300) ∧
    slotCalls 1 (tasks 300 (scenarioAfter 6)).calls =
      slotCalls 1 (scenarioAfter 6).calls ++
        [Call.finish 1 ((scenarioAfter 6).timerEvents.events 1)
           ((scenarioAfter 6).mem ((scenarioAfter 6).timerEvents.events 1)).finish,
         Call.execute 1 ((scenarioAfter 6).timerEvents.events 1)
           ((scenarioAfter 6).mem ((scenarioAfter 6).timerEvents.events 1)).execute] :=
  ⟨by decide,
    (C12_expire_then_fire (scenarioAfter 6) 300 1 (by decide) (by decide) (by decide)
      (by decide) (by decide)).1⟩

/-! ## C13: a zero period -/

theorem addUL_zero_le (t : Nat) : addUL t 0 ≤ t := by
  unfold addUL
  exact Nat.mod_le _ _

/-- An enabled unbounded event with period `0`, seen on its slot: it fires at
every poll of a non-decreasing run that starts at or after its timeout. -/
theorem stepView_zero_period (ts : List Nat) (v : SlotView)
    (hen : v.event.isEnabled = true) (hd : v.event.duration = -1)
    (hp : v.event.period = 0) (hs : List.Pairwise (· ≤ ·) ts)
    (hT : ∀ t ∈ ts, v.timeout ≤ t) :
    (ts.foldl (fun acc t => stepView t acc) v).executes = v.executes + ts.length ∧
    (ts.foldl (fun acc t => stepView t acc) v).event = v.event := by
  induction ts generalizing v with
  | nil => exact ⟨rfl, rfl⟩
  | cons t rest ih =>
    have ht : v.timeout ≤ t := hT t (by simp)
    have hstep : stepView t v =
        { v with timeout := addUL t 0, executes := v.executes + 1 } := by
      unfold stepView
      simp [hen, hd, hp, ht]
    rw [List.pairwise_cons] at hs
    have h := ih (stepView t v) (by rw [hstep]; exact hen) (by rw [hstep]; exact hd)
      (by rw [hstep]; exact hp) hs.2
      (fun u hu => by
        rw [hstep]
        exact Nat.le_trans (addUL_zero_le t) (hs.1 u hu))
    rw [List.foldl_cons, h.1, h.2, hstep, List.length_cons]
    exact ⟨by simp only []; omega, rfl⟩

theorem polls_zero_period (w : World) (T₁ T₂ e : Nat) (ts : List Nat)
    (hn : w.timerEvents.numberOfEvents < MAX_NUMBER_OF_EVENTS)
    (hfresh : ∀ j, j < w.timerEvents.numberOfEvents → w.timerEvents.events j ≠ e)
    (hen : (w.mem e).isEnabled = true) (hp : (w.mem e).period = 0)
    (hd : (w.mem e).duration = -1)
    (hs : List.Pairwise (· ≤ ·) ts) (hT : ∀ t ∈ ts, T₁ ≤ t) :
    executeCount w.timerEvents.numberOfEvents (polls ts (add T₁ T₂ e w)).calls =
      executeCount w.timerEvents.numberOfEvents w.calls + ts.length ∧
    ((polls ts (add T₁ T₂ e w)).mem e).isEnabled = true := by
  have hu := add_unshared T₁ T₂ e hn hfresh
  have hnum : w.timerEvents.numberOfEvents < (add T₁ T₂ e w).timerEvents.numberOfEvents := by
    rw [add_numberOfEvents T₁ T₂ e hn]; omega
  have hv := slotView_polls ts (add T₁ T₂ e w) hnum hu
  rw [slotView_add_new T₁ T₂ e hn] at hv
  have hz := stepView_zero_period ts
    { event := { w.mem e with index := (w.timerEvents.numberOfEvents : Int) }
      timeout := T₁, stop := T₂
      executes := executeCount w.timerEvents.numberOfEvents w.calls
      finishes := finishCount w.timerEvents.numberOfEvents w.calls }
    hen hd hp hs hT
  rw [← hv] at hz
  have hev : (polls ts (add T₁ T₂ e w)).timerEvents.events w.timerEvents.numberOfEvents
      = e := by
    rw [polls_events, add_events_new T₁ T₂ e hn]
  constructor
  · exact hz.1
  · have h2 := hz.2
    unfold slotView at h2
    simp only [] at h2
    rw [hev] at h2
    rw [h2]
    exact hen

/-- C13 (a zero period fires on every poll).  Register with `add`, at clock
reading `T₁`, a fresh event that is enabled, has `period == 0` and
`duration == -1`, and poll along a non-decreasing sequence of readings, all at
or after `T₁`.  Then every poll of the sequence makes exactly one call of
`execute()` for the event's slot: the count after a poll is one more than
before it, the count after the whole sequence is the number of polls, and the
event is still enabled. -/
theorem C13_zero_period_fires_every_poll (w : World) (T₁ T₂ e : Nat) (ts : List Nat)
    (hn : w.timerEvents.numberOfEvents < MAX_NUMBER_OF_EVENTS)
    (hfresh : ∀ j, j < w.timerEvents.numberOfEvents → w.timerEvents.events j ≠ e)
    (hen : (w.mem e).isEnabled = true) (hp : (w.mem e).period = 0)
    (hd : (w.mem e).duration = -1)
    (hs : List.Pairwise (· ≤ ·) ts) (hT : ∀ t ∈ ts, T₁ ≤ t) :
    (∀ front t back, ts = front ++ t :: back →
      executeCount w.timerEvents.numberOfEvents
          (polls (front ++ [t]) (add T₁ T₂ e w)).calls =
        executeCount w.timerEvents.numberOfEvents (polls front (add T₁ T₂ e w)).calls + 1) ∧
    executeCount w.timerEvents.numberOfEvents (polls ts (add T₁ T₂ e w)).calls =
      executeCount w.timerEvents.numberOfEvents w.calls + ts.length ∧
    ((polls ts (add T₁ T₂ e w)).mem e).isEnabled = true := by
  refine ⟨?_, polls_zero_period w T₁ T₂ e ts hn hfresh hen hp hd hs hT⟩
  intro front t back hts
  have hsub1 : List.Sublist (front ++ [t]) ts := by
    rw [hts]
    exact List.Sublist.append_left (List.cons_sublist_cons.mpr (List.nil_sublist _)) front
  have hsub0 : List.Sublist front ts :=
    List.Sublist.trans (List.sublist_append_left front [t]) hsub1
  have h1 := (polls_zero_period w T₁ T₂ e (front ++ [t]) hn hfresh hen hp hd
    (hs.sublist hsub1) (fun u hu => hT u (hsub1.subset hu))).1
  have h0 := (polls_zero_period w T₁ T₂ e front hn hfresh hen hp hd
    (hs.sublist hsub0) (fun u hu => hT u (hsub0.subset hu))).1
  rw [h1, h0, List.length_append, List.length_singleton]
  omega

/-- C13 at a concrete input: event `Z` registered at `7`, polled at
`7, 7, 9, 20`. -/
theorem C13_zero_period_fires_every_poll_witness :
    (zeroWorld.timerEvents.numberOfEvents < MAX_NUMBER_OF_EVENTS ∧
      (zeroWorld.mem 5).isEnabled = true ∧ (zeroWorld.mem 5).period = 0 ∧
      (zeroWorld.mem 5).duration = -1 ∧ List.Pairwise (· ≤ ·) [7, 7, 9, 20]) ∧
    executeCount 0 (polls [7, 7, 9, 20] (add 7 7 5 zeroWorld)).calls = 4 :=
  ⟨by decide,
    (C13_zero_period_fires_every_poll zeroWorld 7 7 5 [7, 7, 9, 20] (by decide) (by decide)
      (by decide) (by decide) (by decide) (by decide) (by decide)).2.1⟩

/-! ## C14: enable and disable -/

/-- C14 (`enable()` and `disable()` touch only the enabled flag).  `enable()`
sets `isEnabled` to true and `disable()` sets it to false; both leave
`firstCalled`, `period`, `duration`, `index`, `name` and the two handlers as
they are, so `disable()` on an event with `firstCalled != 0` leaves
`firstCalled != 0`. -/
theorem C14_enable_disable_flag_only (e : TimerEvent) :
    e.enable.isEnabled = true ∧ e.disable.isEnabled = false ∧
    (e.enable.firstCalled = e.firstCalled ∧ e.enable.period = e.period ∧
      e.enable.duration = e.duration ∧ e.enable.index = e.index ∧ e.enable.name = e.name ∧
      e.enable.onExecutePtr = e.onExecutePtr ∧ e.enable.onFinishPtr = e.onFinishPtr) ∧
    (e.disable.firstCalled = e.firstCalled ∧ e.disable.period = e.period ∧
      e.disable.duration = e.duration ∧ e.disable.index = e.index ∧
      e.disable.name = e.name ∧ e.disable.onExecutePtr = e.onExecutePtr ∧
      e.disable.onFinishPtr = e.onFinishPtr) ∧
    (e.firstCalled ≠ 0 → e.disable.firstCalled ≠ 0) :=
  ⟨rfl, rfl, ⟨rfl, rfl, rfl, rfl, rfl, rfl, rfl⟩, ⟨rfl, rfl, rfl, rfl, rfl, rfl, rfl⟩,
    fun h => h⟩

/-- C14 at a concrete input: event `B` after it was latched by a poll at `10`. -/
theorem C14_enable_disable_flag_only_witness :
    ((tasks 10 demoWorld).mem 1).firstCalled ≠ 0 ∧
    (((tasks 10 demoWorld).mem 1).disable).firstCalled ≠ 0 :=
  ⟨by decide, (C14_enable_disable_flag_only ((tasks 10 demoWorld).mem 1)).2.2.2.2 (by decide)⟩

/-! ## C15: registration order -/

theorem addEach_nil (w : World) : addEach [] w = w := rfl

theorem addEach_cons (r : Nat × Nat × Nat) (rs : List (Nat × Nat × Nat)) (w : World) :
    addEach (r :: rs) w = addEach rs (add r.2.1 r.2.2 r.1 w) := rfl

theorem add_of_full {w : World} (t₁ t₂ e : Nat)
    (h : MAX_NUMBER_OF_EVENTS ≤ w.timerEvents.numberOfEvents) : add t₁ t₂ e w = w := by
  unfold add
  rw [if_pos h]

/-- Registration order: what a run of `add` calls with distinct events leaves. -/
theorem addEach_spec (rs : List (Nat × Nat × Nat)) (w : World)
    (hcap : w.timerEvents.numberOfEvents ≤ MAX_NUMBER_OF_EVENTS)
    (hnd : (rs.map Prod.fst).Nodup) :
    (addEach rs w).timerEvents.numberOfEvents =
      min (w.timerEvents.numberOfEvents + rs.length) MAX_NUMBER_OF_EVENTS ∧
    (∀ j e, (rs.map Prod.fst)[j]? = some e →
      w.timerEvents.numberOfEvents + j < MAX_NUMBER_OF_EVENTS →
        (addEach rs w).timerEvents.events (w.timerEvents.numberOfEvents + j) = e ∧
        ((addEach rs w).mem e).index = ((w.timerEvents.numberOfEvents + j : Nat) : Int)) ∧
    (∀ j e, (rs.map Prod.fst)[j]? = some e →
      MAX_NUMBER_OF_EVENTS ≤ w.timerEvents.numberOfEvents + j →
        ((addEach rs w).mem e).index = (w.mem e).index) ∧
    (∀ k, k < w.timerEvents.numberOfEvents →
      (addEach rs w).timerEvents.events k = w.timerEvents.events k) ∧
    (∀ q, q ∉ rs.map Prod.fst → (addEach rs w).mem q = w.mem q) := by
  induction rs generalizing w with
  | nil =>
    refine ⟨?_, ?_, ?_, fun _ _ => rfl, fun _ _ => rfl⟩
    · simp only [addEach_nil, List.length_nil, Nat.add_zero]
      exact (Nat.min_eq_left hcap).symm
    · intro j e hj; simp at hj
    · intro j e hj; simp at hj
  | cons r rs ih =>
    rw [List.map_cons, List.nodup_cons] at hnd
    obtain ⟨hnotin, hnd'⟩ := hnd
    rw [addEach_cons]
    by_cases hroom : w.timerEvents.numberOfEvents < MAX_NUMBER_OF_EVENTS
    · have hn1 := add_numberOfEvents r.2.1 r.2.2 r.1 hroom
      obtain ⟨a1, a2, a3, a4, a5⟩ := ih (add r.2.1 r.2.2 r.1 w) (by rw [hn1]; omega) hnd'
      rw [hn1] at a1 a2 a3 a4
      refine ⟨?_, ?_, ?_, ?_, ?_⟩
      · rw [a1, List.length_cons]; congr 1; omega
      · intro j e hj hlt
        cases j with
        | zero =>
          simp only [List.map_cons, List.getElem?_cons_zero, Option.some.injEq] at hj
          subst hj
          rw [Nat.add_zero, a4 _ (Nat.lt_succ_self _), a5 _ hnotin,
            add_events_new r.2.1 r.2.2 r.1 hroom, add_of_room r.2.1 r.2.2 r.1 hroom]
          simp
        | succ j =>
          simp only [List.map_cons, List.getElem?_cons_succ] at hj
          have := a2 j e hj (by omega)
          have hidx : w.timerEvents.numberOfEvents + 1 + j =
              w.timerEvents.numberOfEvents + (j + 1) := by omega
          rw [hidx] at this
          exact this
      · intro j e hj hge
        cases j with
        | zero => omega
        | succ j =>
          simp only [List.map_cons, List.getElem?_cons_succ] at hj
          have hne : e ≠ r.1 := by
            intro heq
            apply hnotin
            rw [← heq]
            exact List.getElem?_mem hj
          rw [a3 j e hj (by omega), add_mem_other r.2.1 r.2.2 r.1 hne]
      · intro k hk
        rw [a4 k (by omega), add_events_old r.2.1 r.2.2 r.1 hk]
      · intro q hq
        rw [List.map_cons, List.mem_cons, not_or] at hq
        rw [a5 q hq.2, add_mem_other r.2.1 r.2.2 r.1 hq.1]
    · have hfull : MAX_NUMBER_OF_EVENTS ≤ w.timerEvents.numberOfEvents := Nat.not_lt.mp hroom
      rw [add_of_full r.2.1 r.2.2 r.1 hfull]
      obtain ⟨a1, a2, a3, a4, a5⟩ := ih w hcap hnd'
      refine ⟨?_, ?_, ?_, a4, ?_⟩
      · rw [a1, List.length_cons, Nat.min_eq_right (by omega), Nat.min_eq_right (by omega)]
      · intro j e hj hlt
        omega
      · intro j e hj hge
        cases j with
        | zero =>
          simp only [List.map_cons, List.getElem?_cons_zero, Option.some.injEq] at hj
          subst hj
          rw [a5 _ hnotin]
        | succ j =>
          simp only [List.map_cons, List.getElem?_cons_succ] at hj
          exact a3 j e hj (by omega)
      · intro q hq
        rw [List.map_cons, List.mem_cons, not_or] at hq
        exact a5 q hq.2

/-- C15 (slots follow registration order).  Starting from an empty scheduler,
after a sequence of `n` calls of `add` with distinct fresh events
`e_0, ..., e_(n-1)` (index `-1` each), `numberOfEvents = min(n, 32)`, for every
`j < min(n, 32)` the slot `j` holds `e_j` and `e_j.index = j`, and every `e_j`
with `j >= 32` still has `index == -1`. -/
theorem C15_slots_follow_registration_order (w : World) (rs : List (Nat × Nat × Nat))
    (h0 : w.timerEvents.numberOfEvents = 0)
    (hnd : (rs.map Prod.fst).Nodup)
    (hfresh : ∀ e ∈ rs.map Prod.fst, (w.mem e).index = -1) :
    (addEach rs w).timerEvents.numberOfEvents = min rs.length MAX_NUMBER_OF_EVENTS ∧
    (∀ j e, (rs.map Prod.fst)[j]? = some e → j < MAX_NUMBER_OF_EVENTS →
      (addEach rs w).timerEvents.events j = e ∧
      ((addEach rs w).mem e).index = ((j : Nat) : Int)) ∧
    (∀ j e, (rs.map Prod.fst)[j]? = some e → MAX_NUMBER_OF_EVENTS ≤ j →
      ((addEach rs w).mem e).index = -1) := by
  obtain ⟨a1, a2, a3, _, _⟩ := addEach_spec rs w (by rw [h0]; exact Nat.zero_le _) hnd
  rw [h0] at a1 a2 a3
  simp only [Nat.zero_add] at a1 a2 a3
  refine ⟨a1, a2, fun j e hj hge => ?_⟩
  rw [a3 j e hj hge]
  exact hfresh e (List.getElem?_mem hj)

set_option maxRecDepth 20000 in
/-- C15 at a concrete input: thirty-three registrations. -/
theorem C15_slots_follow_registration_order_witness :
    (emptyWorld.timerEvents.numberOfEvents = 0 ∧
      (manyRegistrations.map Prod.fst).Nodup ∧
      (∀ e ∈ manyRegistrations.map Prod.fst, (emptyWorld.mem e).index = -1)) ∧
    (addEach manyRegistrations emptyWorld).timerEvents.numberOfEvents = 32 ∧
    (addEach manyRegistrations emptyWorld).timerEvents.events 31 = 31 ∧
    ((addEach manyRegistrations emptyWorld).mem 32).index = -1 :=
  ⟨by decide,
    (C15_slots_follow_registration_order emptyWorld manyRegistrations (by decide)
      (by decide) (by decide)).1,
    ((C15_slots_follow_registration_order emptyWorld manyRegistrations (by decide)
      (by decide) (by decide)).2.1 31 31 (by decide) (by decide)).1,
    (C15_slots_follow_registration_order emptyWorld manyRegistrations (by decide)
      (by decide) (by decide)).2.2 32 32 (by decide) (by decide)⟩

/-! ## C16: after expiry -/

/-- One poll calls `finish()` for a slot at most once, and when it does the
event is disabled with `firstCalled = 0` when the poll returns. -/
theorem tasks_finish_once (time : Nat) (w : World) {i : Nat}
    (hi : i < w.timerEvents.numberOfEvents) :
    (finishCount i (tasks time w).calls = finishCount i w.calls ∨
      (finishCount i (tasks time w).calls = finishCount i w.calls + 1 ∧
        ((tasks time w).mem (w.timerEvents.events i)).isEnabled = false ∧
        ((tasks time w).mem (w.timerEvents.events i)).firstCalled = 0)) := by
  have hc := tasks_finishCount time w hi
  rw [reached_succ, tasksSlot_finishCount_self, reached_finishCount] at hc
  by_cases hcond : ((reached time i w).mem ((reached time i w).timerEvents.events i)).isEnabled
      = true ∧
      ((reached time i w).mem ((reached time i w).timerEvents.events i)).duration ≠ -1 ∧
      deadline time i (reached time i w) ≤ time
  · right
    rw [if_pos hcond] at hc
    have hm := tasksSlot_mem_self time i (reached time i w)
    rw [← reached_succ, if_pos ⟨hcond.1, hcond.2.1⟩, if_pos hcond.2.2, reached_events] at hm
    have h1 : ((reached time (i + 1) w).mem (w.timerEvents.events i)).isEnabled = false := by
      rw [hm]
    have h2 : ((reached time (i + 1) w).mem (w.timerEvents.events i)).firstCalled = 0 := by
      rw [hm]
    rw [tasks_mem_of_disabled time w hi h1]
    exact ⟨hc, h1, h2⟩
  · left
    rw [if_neg hcond] at hc
    exact hc

/-- Any run of polls calls `finish()` for a slot at most once. -/
theorem polls_finish_once (ts : List Nat) (w : World) {i : Nat}
    (hi : i < w.timerEvents.numberOfEvents) :
    finishCount i (polls ts w).calls ≤ finishCount i w.calls + 1 := by
  induction ts generalizing w with
  | nil => exact Nat.le_succ _
  | cons t ts ih =>
    rw [polls_cons]
    have hi' : i < (tasks t w).timerEvents.numberOfEvents := by
      rw [tasks_numberOfEvents]; exact hi
    rcases tasks_finish_once t w hi with h | ⟨h, hd, _⟩
    · rw [← h]; exact ih (tasks t w) hi'
    · have hd' : ((tasks t w).mem ((tasks t w).timerEvents.events i)).isEnabled = false := by
        rw [tasks_events]; exact hd
      rw [(polls_disabled ts (tasks t w) i hi' hd').2.1, h]

/-- C16 (`finish()` once per expiry cycle, then silence).  If a poll makes a
call of `finish()` for a registered slot, it makes exactly one, and the event
is disabled with `firstCalled = 0` when the poll returns; every later run of
polls then makes no call of `finish()` or `execute()` for the slot and leaves
`timeouts[slot]`, `durations[slot]` and every field of the event unchanged.
Hence any run of polls, from any state, makes at most one call of `finish()`
for a slot: between two calls of `enable()` the event finishes at most once.
The silence holds for every slot that refers to the event. -/
theorem C16_finish_once_then_silent (w : World) (t i : Nat)
    (hi : i < w.timerEvents.numberOfEvents) :
    (finishCount i (tasks t w).calls ≠ finishCount i w.calls →
      finishCount i (tasks t w).calls = finishCount i w.calls + 1 ∧
      ((tasks t w).mem (w.timerEvents.events i)).isEnabled = false ∧
      ((tasks t w).mem (w.timerEvents.events i)).firstCalled = 0 ∧
      ∀ ts,
        finishCount i (polls ts (tasks t w)).calls = finishCount i (tasks t w).calls ∧
        executeCount i (polls ts (tasks t w)).calls = executeCount i (tasks t w).calls ∧
        (polls ts (tasks t w)).timerEvents.timeouts i = (tasks t w).timerEvents.timeouts i ∧
        (polls ts (tasks t w)).timerEvents.durations i =
          (tasks t w).timerEvents.durations i ∧
        (polls ts (tasks t w)).mem (w.timerEvents.events i) =
          (tasks t w).mem (w.timerEvents.events i) ∧
        ∀ j, j < w.timerEvents.numberOfEvents →
          w.timerEvents.events j = w.timerEvents.events i →
            finishCount j (polls ts (tasks t w)).calls = finishCount j (tasks t w).calls ∧
            executeCount j (polls ts (tasks t w)).calls =
              executeCount j (tasks t w).calls) ∧
    (∀ ts, finishCount i (polls ts w).calls ≤ finishCount i w.calls + 1) := by
  refine ⟨fun hne => ?_, fun ts => polls_finish_once ts w hi⟩
  rcases tasks_finish_once t w hi with h | ⟨h, hd, hf⟩
  · exact absurd h hne
  · refine ⟨h, hd, hf, fun ts => ?_⟩
    have hi' : i < (tasks t w).timerEvents.numberOfEvents := by
      rw [tasks_numberOfEvents]; exact hi
    have hd' : ((tasks t w).mem ((tasks t w).timerEvents.events i)).isEnabled = false := by
      rw [tasks_events]; exact hd
    obtain ⟨a1, a2, a3, a4, a5⟩ := polls_disabled ts (tasks t w) i hi' hd'
    rw [tasks_events] at a1
    refine ⟨a2, a3, a4, a5, a1, fun j hj hje => ?_⟩
    have hj' : j < (tasks t w).timerEvents.numberOfEvents := by
      rw [tasks_numberOfEvents]; exact hj
    have hdj : ((tasks t w).mem ((tasks t w).timerEvents.events j)).isEnabled = false := by
      rw [tasks_events, hje]; exact hd
    obtain ⟨_, b2, b3, _, _⟩ := polls_disabled ts (tasks t w) j hj' hdj
    exact ⟨b2, b3⟩

/-- C16 at a concrete input: event `B` of the worked scenario expires at the
poll at `300` and is then polled at `350`, `400` and `1000`. -/
theorem C16_finish_once_then_silent_witness :
    (1 < (scenarioAfter 6).timerEvents.numberOfEvents ∧
      finishCount 1 (tasks 300 (scenarioAfter 6)).calls ≠
        finishCount 1 (scenarioAfter 6).calls) ∧
    finishCount 1 (polls [350, 400, 1000] (tasks 300 (scenarioAfter 6))).calls =
      finishCount 1 (tasks 300 (scenarioAfter 6)).calls ∧
    executeCount 1 (polls [350, 400, 1000] (tasks 300 (scenarioAfter 6))).calls =
      executeCount 1 (tasks 300 (scenarioAfter 6)).calls :=
  ⟨by decide,
    (((C16_finish_once_then_silent (scenarioAfter 6) 300 1 (by decide)).1
      (by decide)).2.2.2 [350, 400, 1000]).1,
    (((C16_finish_once_then_silent (scenarioAfter 6) 300 1 (by decide)).1
      (by decide)).2.2.2 [350, 400, 1000]).2.1⟩

/-! ## C17: the registry bounds -/

theorem registryInv_ctor (w : World) :
    registryInv { w with timerEvents := w.timerEvents.ctor } := by
  refine ⟨Nat.zero_le _, fun j hj => ?_⟩
  exact absurd hj (Nat.not_lt_zero j)

theorem add_mem_self {w : World} (t₁ t₂ e : Nat)
    (h : w.timerEvents.numberOfEvents < MAX_NUMBER_OF_EVENTS) :
    (add t₁ t₂ e w).mem e = { w.mem e with index := (w.timerEvents.numberOfEvents : Int) } := by
  rw [add_of_room t₁ t₂ e h]
  simp only []
  rw [Function.update_same]

theorem add_index {w : World} (t₁ t₂ e q : Nat)
    (h : w.timerEvents.numberOfEvents < MAX_NUMBER_OF_EVENTS) :
    ((add t₁ t₂ e w).mem q).index =
      if q = e then (w.timerEvents.numberOfEvents : Int) else (w.mem q).index := by
  by_cases hq : q = e
  · subst hq
    rw [add_mem_self t₁ t₂ q h, if_pos rfl]
  · rw [add_mem_other t₁ t₂ e hq, if_neg hq]

theorem registryInv_add (w : World) (t₁ t₂ e : Nat) (hinv : registryInv w) :
    registryInv (add t₁ t₂ e w) := by
  by_cases hroom : w.timerEvents.numberOfEvents < MAX_NUMBER_OF_EVENTS
  · have hn := add_numberOfEvents t₁ t₂ e hroom
    refine ⟨by rw [hn]; omega, fun j hj => ?_⟩
    rw [hn] at hj ⊢
    rw [add_index t₁ t₂ e _ hroom]
    split_ifs with hq
    · constructor <;> push_cast <;> omega
    · have hjn : j ≠ w.timerEvents.numberOfEvents := by
        intro heq
        apply hq
        rw [heq, add_events_new t₁ t₂ e hroom]
      have hj' : j < w.timerEvents.numberOfEvents := by omega
      rw [add_events_old t₁ t₂ e hj']
      have := hinv.2 j hj'
      constructor
      · exact this.1
      · push_cast; omega
  · rw [add_of_full t₁ t₂ e (Nat.not_lt.mp hroom)]
    exact hinv

theorem registryInv_tasks (w : World) (time : Nat) (hinv : registryInv w) :
    registryInv (tasks time w) := by
  unfold registryInv
  rw [tasks_numberOfEvents, tasks_events]
  refine ⟨hinv.1, fun j hj => ?_⟩
  rw [(tasks_config time (w.timerEvents.events j) w).2.2.2.2.2]
  exact hinv.2 j hj

theorem registryInv_update (w : World) (e : Nat) (hinv : registryInv w)
    (he : indexAssigned e w) :
    ∃ w', update e w = some w' ∧ registryInv w' ∧
      w'.timerEvents.numberOfEvents = w.timerEvents.numberOfEvents ∧
      w'.mem = w.mem := by
  unfold update
  by_cases h1 : (w.mem e).index = -1
  · rw [if_pos h1]
    exact ⟨w, rfl, hinv, rfl, rfl⟩
  · rcases he with he | ⟨h0, hlt⟩
    · exact absurd he h1
    · have hcap : (w.mem e).index < (MAX_NUMBER_OF_EVENTS : Int) := by
        have := hinv.1
        omega
      rw [if_neg h1, if_pos ⟨h0, hcap⟩]
      refine ⟨_, rfl, ⟨hinv.1, fun j hj => ?_⟩, rfl, rfl⟩
      simp only []
      by_cases hjk : j = (w.mem e).index.toNat
      · rw [hjk, Function.update_same]
        exact ⟨h0, hlt⟩
      · rw [Function.update_noteq hjk]
        exact hinv.2 j hj

theorem indexAssigned_add (w : World) (t₁ t₂ e q : Nat) (h : indexAssigned q w) :
    indexAssigned q (add t₁ t₂ e w) := by
  by_cases hroom : w.timerEvents.numberOfEvents < MAX_NUMBER_OF_EVENTS
  · unfold indexAssigned
    rw [add_numberOfEvents t₁ t₂ e hroom, add_index t₁ t₂ e q hroom]
    split_ifs with hq
    · right; constructor <;> push_cast <;> omega
    · rcases h with h | ⟨h0, hlt⟩
      · left; exact h
      · right
        refine ⟨h0, ?_⟩
        push_cast; omega
  · rw [add_of_full t₁ t₂ e (Nat.not_lt.mp hroom)]
    exact h

theorem indexAssigned_tasks (w : World) (time q : Nat) (h : indexAssigned q w) :
    indexAssigned q (tasks time w) := by
  unfold indexAssigned
  rw [tasks_numberOfEvents, (tasks_config time q w).2.2.2.2.2]
  exact h

theorem update_frame (w w' : World) (e : Nat) (h : update e w = some w') :
    w'.mem = w.mem ∧ w'.timerEvents.numberOfEvents = w.timerEvents.numberOfEvents ∧
    w'.timerEvents.timeouts = w.timerEvents.timeouts ∧
    w'.timerEvents.durations = w.timerEvents.durations ∧ w'.calls = w.calls := by
  unfold update at h
  split_ifs at h
  · cases h; exact ⟨rfl, rfl, rfl, rfl, rfl⟩
  · cases h; exact ⟨rfl, rfl, rfl, rfl, rfl⟩

theorem add_numberOfEvents_le (w : World) (t₁ t₂ e : Nat) :
    w.timerEvents.numberOfEvents ≤ (add t₁ t₂ e w).timerEvents.numberOfEvents ∧
    (add t₁ t₂ e w = w ∨ w.timerEvents.numberOfEvents < MAX_NUMBER_OF_EVENTS) := by
  by_cases hroom : w.timerEvents.numberOfEvents < MAX_NUMBER_OF_EVENTS
  · rw [add_numberOfEvents t₁ t₂ e hroom]
    exact ⟨Nat.le_succ _, Or.inr hroom⟩
  · rw [add_of_full t₁ t₂ e (Nat.not_lt.mp hroom)]
    exact ⟨Nat.le_refl _, Or.inl rfl⟩

/-- C17 (registry bounds invariant).  The predicate that `numberOfEvents` is at
most `32` and that every event held by a slot `j < numberOfEvents` has an index
`k` with `0 <= k < numberOfEvents` holds for the freshly constructed scheduler and is
preserved by `add`, by `tasks`, and by `update` applied to an event whose index
is `-1` or a slot in use (the values `add` assigns); `update` then succeeds.
Consequently `add` writes its arrays only at an index below `32`, the loop of
`tasks` only visits indices below `32`, and `numberOfEvents` never decreases.
An index that is `-1` or a slot in use stays so under `add`, `tasks` and
`update`. -/
theorem C17_registry_bounds (w : World) :
    registryInv { w with timerEvents := w.timerEvents.ctor } ∧
    (registryInv w →
      (∀ t₁ t₂ e, registryInv (add t₁ t₂ e w) ∧
        w.timerEvents.numberOfEvents ≤ (add t₁ t₂ e w).timerEvents.numberOfEvents ∧
        (add t₁ t₂ e w = w ∨ w.timerEvents.numberOfEvents < MAX_NUMBER_OF_EVENTS)) ∧
      (∀ time, registryInv (tasks time w) ∧
        (tasks time w).timerEvents.numberOfEvents = w.timerEvents.numberOfEvents ∧
        ∀ i ∈ List.range w.timerEvents.numberOfEvents, i < MAX_NUMBER_OF_EVENTS) ∧
      (∀ e, indexAssigned e w →
        ∃ w', update e w = some w' ∧ registryInv w' ∧
          w'.timerEvents.numberOfEvents = w.timerEvents.numberOfEvents)) ∧
    (∀ q, indexAssigned q w →
      (∀ t₁ t₂ e, indexAssigned q (add t₁ t₂ e w)) ∧
      (∀ time, indexAssigned q (tasks time w)) ∧
      (∀ e w', update e w = some w' → indexAssigned q w')) := by
  refine ⟨registryInv_ctor w, fun hinv => ⟨fun t₁ t₂ e => ?_, fun time => ?_, fun e he => ?_⟩,
    fun q hq => ⟨fun t₁ t₂ e => indexAssigned_add w t₁ t₂ e q hq,
      fun time => indexAssigned_tasks w time q hq, fun e w' hu => ?_⟩⟩
  · exact ⟨registryInv_add w t₁ t₂ e hinv, add_numberOfEvents_le w t₁ t₂ e⟩
  · refine ⟨registryInv_tasks w time hinv, tasks_numberOfEvents time w, fun i hi => ?_⟩
    rw [List.mem_range] at hi
    exact Nat.lt_of_lt_of_le hi hinv.1
  · obtain ⟨w', h1, h2, h3, _⟩ := registryInv_update w e hinv he
    exact ⟨w', h1, h2, h3⟩
  · obtain ⟨hm, hn, _⟩ := update_frame w w' e hu
    unfold indexAssigned
    rw [hm, hn]
    exact hq

/-- C17 at a concrete input: the scheduler with `A` and `B` registered. -/
theorem C17_registry_bounds_witness :
    (registryInv demoWorld ∧ indexAssigned 1 demoWorld) ∧
    registryInv (add 5 5 7 demoWorld) ∧ registryInv (tasks 100 demoWorld) ∧
    ∃ w', update 1 demoWorld = some w' ∧ registryInv w' :=
  ⟨by decide,
    (((C17_registry_bounds demoWorld).2.1 (by decide)).1 5 5 7).1,
    (((C17_registry_bounds demoWorld).2.1 (by decide)).2.1 100).1,
    (((C17_registry_bounds demoWorld).2.1 (by decide)).2.2 1 (by decide)).elim
      (fun w' h => ⟨w', h.1, h.2.1⟩)⟩

/-! ## C18: spacing between fires -/

/-- One poll either makes no call of `execute()` for a slot and leaves its
timeout, or makes one call, at a reading that has reached the timeout, and sets
the timeout to the reading plus the period. -/
theorem tasks_fire_cases (time : Nat) (w : World) {i : Nat}
    (hi : i < w.timerEvents.numberOfEvents) :
    (executeCount i (tasks time w).calls = executeCount i w.calls ∧
      (tasks time w).timerEvents.timeouts i = w.timerEvents.timeouts i) ∨
    (executeCount i (tasks time w).calls = executeCount i w.calls + 1 ∧
      w.timerEvents.timeouts i ≤ time ∧
      (tasks time w).timerEvents.timeouts i =
        addUL time (w.mem (w.timerEvents.events i)).period) := by
  have hc := tasks_executeCount time w hi
  have ht := tasks_timeouts time w hi
  rw [reached_succ, tasksSlot_executeCount_self, reached_executeCount, reached_events,
    reached_timeouts] at hc
  rw [reached_succ, tasksSlot_timeouts_self, reached_events, reached_timeouts,
    (reached_config time i (w.timerEvents.events i) w).2.1] at ht
  by_cases hcond : ((reached time i w).mem (w.timerEvents.events i)).isEnabled = true ∧
      w.timerEvents.timeouts i ≤ time
  · rw [if_pos hcond] at hc ht
    exact Or.inr ⟨hc, hcond.2, ht⟩
  · rw [if_neg hcond] at hc ht
    exact Or.inl ⟨hc, ht⟩

theorem fireTimes_spacing (i P : Nat) (ts : List Nat) (w : World)
    (hi : i < w.timerEvents.numberOfEvents)
    (hP : (w.mem (w.timerEvents.events i)).period = P)
    (hw : ∀ u ∈ fireTimes i ts w, u + P < ULONG_MOD) :
    (∀ u, (fireTimes i ts w).head? = some u → w.timerEvents.timeouts i ≤ u) ∧
    List.Chain' (fun s u => s + P ≤ u) (fireTimes i ts w) ∧
    (polls ts w).timerEvents.timeouts i =
      (match (fireTimes i ts w).getLast? with
        | some u => u + P
        | none => w.timerEvents.timeouts i) ∧
    executeCount i (polls ts w).calls = executeCount i w.calls + (fireTimes i ts w).length := by
  induction ts generalizing w with
  | nil =>
    refine ⟨fun u hu => ?_, List.chain'_nil, rfl, rfl⟩
    simp [fireTimes] at hu
  | cons t ts ih =>
    have hi' : i < (tasks t w).timerEvents.numberOfEvents := by
      rw [tasks_numberOfEvents]; exact hi
    have hP' : ((tasks t w).mem ((tasks t w).timerEvents.events i)).period = P := by
      rw [tasks_events, (tasks_config t (w.timerEvents.events i) w).2.1]; exact hP
    rw [polls_cons]
    rcases tasks_fire_cases t w hi with ⟨hc, hto⟩ | ⟨hc, hle, hto⟩
    · have hft : fireTimes i (t :: ts) w = fireTimes i ts (tasks t w) := by
        simp only [fireTimes, if_pos hc]
      rw [hft] at hw ⊢
      obtain ⟨a1, a2, a3, a4⟩ := ih (tasks t w) hi' hP' hw
      rw [hto] at a1 a3
      rw [hc] at a4
      exact ⟨a1, a2, a3, a4⟩
    · have hne : ¬ executeCount i (tasks t w).calls = executeCount i w.calls := by
        rw [hc]; omega
      have hft : fireTimes i (t :: ts) w = t :: fireTimes i ts (tasks t w) := by
        simp only [fireTimes, if_neg hne]
      rw [hft] at hw ⊢
      have hwt : t + P < ULONG_MOD := hw t (by simp)
      rw [hP, addUL_of_lt hwt] at hto
      obtain ⟨a1, a2, a3, a4⟩ := ih (tasks t w) hi' hP'
        (fun u hu => hw u (List.mem_cons_of_mem _ hu))
      rw [hto] at a1 a3
      rw [hc] at a4
      refine ⟨fun u hu => ?_, ?_, ?_, ?_⟩
      · simp only [List.head?_cons, Option.some.injEq] at hu
        rw [← hu]; exact hle
      · rw [List.chain'_cons']
        exact ⟨fun y hy => a1 y (by simpa using hy), a2⟩
      · rw [a3]
        cases hF : fireTimes i ts (tasks t w) with
        | nil => simp
        | cons a l =>
          rw [List.getLast?_cons_cons, List.getLast?_eq_getLast _ (List.cons_ne_nil a l)]
      · rw [a4, List.length_cons]; omega

/-- C18 (minimum spacing between fires).  Let slot `i` be registered and its
event have period `P`, and let `fireTimes` be the readings of the polls of a
sequence that called `execute()` for the slot, with `now + P` below `2 ^ 32` at
each of them.  These polls account for every call of `execute()` for the slot,
any two consecutive ones are at readings `s` and `t` with `t - s >= P`, and
once the slot has fired, `timeouts[slot]` after the sequence is the reading of
the most recent fire plus `P`. -/
theorem C18_minimum_spacing (w : World) (i P : Nat) (ts : List Nat)
    (hi : i < w.timerEvents.numberOfEvents)
    (hP : (w.mem (w.timerEvents.events i)).period = P)
    (hw : ∀ u ∈ fireTimes i ts w, u + P < ULONG_MOD) :
    executeCount i (polls ts w).calls = executeCount i w.calls + (fireTimes i ts w).length ∧
    List.Chain' (fun s u => s + P ≤ u) (fireTimes i ts w) ∧
    (∀ u, (fireTimes i ts w).getLast? = some u →
      (polls ts w).timerEvents.timeouts i = u + P) ∧
    ((fireTimes i ts w) = [] →
      (polls ts w).timerEvents.timeouts i = w.timerEvents.timeouts i) := by
  obtain ⟨_, a2, a3, a4⟩ := fireTimes_spacing i P ts w hi hP hw
  refine ⟨a4, a2, fun u hu => ?_, fun hnil => ?_⟩
  · rw [hu] at a3; exact a3
  · rw [hnil] at a3; exact a3

/-- C18 at a concrete input: event `A` (period `100`) over the polls of the
worked scenario fires at `0, 100, 200, 300`. -/
theorem C18_minimum_spacing_witness :
    (0 < demoWorld.timerEvents.numberOfEvents ∧
      (demoWorld.mem (demoWorld.timerEvents.events 0)).period = 100 ∧
      fireTimes 0 scenarioReadings demoWorld = [0, 100, 200, 300] ∧
      (∀ u ∈ fireTimes 0 scenarioReadings demoWorld, u + 100 < ULONG_MOD)) ∧
    List.Chain' (fun s u => s + 100 ≤ u) (fireTimes 0 scenarioReadings demoWorld) ∧
    (polls scenarioReadings demoWorld).timerEvents.timeouts 0 = 300 + 100 :=
  ⟨by decide,
    (C18_minimum_spacing demoWorld 0 100 scenarioReadings (by decide) (by decide)
      (by decide)).2.1,
    (C18_minimum_spacing demoWorld 0 100 scenarioReadings (by decide) (by decide)
      (by decide)).2.2.1 300 (by decide)⟩

/-! ## C19: a poll at reading zero -/

theorem addULong_zero_nat {D : Nat} (h : D < ULONG_MOD) : addULong 0 (D : Int) = D := by
  have := @addULong_nat 0 D (by omega)
  omega

/-- C19 (a poll at clock reading `0` does not latch the lifespan).  Take a
registered, enabled, bounded event with `firstCalled == 0` and duration
`D > 0` in a slot of its own.  A poll at reading `0` leaves `firstCalled == 0`
and the event enabled while setting `durations[slot] = D`.  The next poll, at
reading `t`, runs the latch step again: the latch sets `firstCalled = t`, the
poll leaves `durations[slot] = t + D` (the `unsigned long` sum), and when
`t + D` does not wrap the event is still enabled with `firstCalled = t`, so the
deadline is `t + D` and not `0 + D`. -/
theorem C19_poll_at_zero_does_not_latch (w : World) (i D t : Nat)
    (hi : i < w.timerEvents.numberOfEvents) (hu : unshared i w)
    (hen : (w.mem (w.timerEvents.events i)).isEnabled = true)
    (hD : (w.mem (w.timerEvents.events i)).duration = (D : Int))
    (hfc : (w.mem (w.timerEvents.events i)).firstCalled = 0)
    (hpos : 0 < D) (hDr : D < ULONG_MOD) :
    ((tasks 0 w).mem (w.timerEvents.events i)).firstCalled = 0 ∧
    ((tasks 0 w).mem (w.timerEvents.events i)).isEnabled = true ∧
    (tasks 0 w).timerEvents.durations i = D ∧
    ((latch t i (reached t i (tasks 0 w))).mem (w.timerEvents.events i)).firstCalled = t ∧
    (polls [0, t] w).timerEvents.durations i = addULong t (D : Int) ∧
    (t + D < ULONG_MOD →
      (polls [0, t] w).timerEvents.durations i = t + D ∧
      ((polls [0, t] w).mem (w.timerEvents.events i)).firstCalled = t ∧
      ((polls [0, t] w).mem (w.timerEvents.events i)).isEnabled = true) := by
  have hb : (w.mem (w.timerEvents.events i)).duration ≠ -1 := by
    rw [hD]; omega
  -- the poll at reading 0
  have hdl0 : deadline 0 i w = D := by
    rw [deadline_eq, if_pos hfc, hD, addULong_zero_nat hDr]
  have hm0 := tasks_mem_unshared 0 hi hu
  have hd0 := tasks_durations_unshared 0 hi hu
  rw [tasksSlot_mem_self, if_pos ⟨hen, hb⟩, hdl0, if_neg (by omega), if_pos hfc] at hm0
  rw [tasksSlot_durations_self, if_pos ⟨hen, hb, hfc⟩, hD, addULong_zero_nat hDr] at hd0
  have hfc1 : ((tasks 0 w).mem (w.timerEvents.events i)).firstCalled = 0 := by rw [hm0]
  have hen1 : ((tasks 0 w).mem (w.timerEvents.events i)).isEnabled = true := by
    rw [hm0]; exact hen
  have hD1 : ((tasks 0 w).mem (w.timerEvents.events i)).duration = (D : Int) := by
    rw [hm0]; exact hD
  -- the poll at reading t
  have hi1 : i < (tasks 0 w).timerEvents.numberOfEvents := by
    rw [tasks_numberOfEvents]; exact hi
  have hu1 : unshared i (tasks 0 w) := tasks_unshared 0 hu
  have hev1 : (tasks 0 w).timerEvents.events = w.timerEvents.events := tasks_events 0 w
  have hfc1' : ((tasks 0 w).mem ((tasks 0 w).timerEvents.events i)).firstCalled = 0 := by
    rw [hev1]; exact hfc1
  have hen1' : ((tasks 0 w).mem ((tasks 0 w).timerEvents.events i)).isEnabled = true := by
    rw [hev1]; exact hen1
  have hD1' : ((tasks 0 w).mem ((tasks 0 w).timerEvents.events i)).duration = (D : Int) := by
    rw [hev1]; exact hD1
  have hb1' : ((tasks 0 w).mem ((tasks 0 w).timerEvents.events i)).duration ≠ -1 := by
    rw [hD1']; omega
  have hl : ((latch t i (reached t i (tasks 0 w))).mem (w.timerEvents.events i)).firstCalled
      = t := by
    have hr := reached_mem_unshared t hi1 hu1
    have hfr : ((reached t i (tasks 0 w)).mem
        ((reached t i (tasks 0 w)).timerEvents.events i)).firstCalled = 0 := by
      rw [reached_events, hr]; exact hfc1'
    have := latch_mem_of_fresh t i (reached t i (tasks 0 w)) hfr
    rw [reached_events, hev1] at this
    rw [this]
  have hm1 := tasks_mem_unshared t hi1 hu1
  have hd1 := tasks_durations_unshared t hi1 hu1
  rw [tasksSlot_durations_self, if_pos ⟨hen1', hb1', hfc1'⟩, hD1'] at hd1
  have hpolls : polls [0, t] w = tasks t (tasks 0 w) := rfl
  rw [hpolls]
  refine ⟨hfc1, hen1, hd0, hl, hd1, fun hwrap => ?_⟩
  have hdl1 : deadline t i (tasks 0 w) = t + D := by
    rw [deadline_eq, if_pos hfc1', hD1', addULong_nat hwrap]
  rw [tasksSlot_mem_self, if_pos ⟨hen1', hb1'⟩, hdl1, if_neg (by omega), if_pos hfc1',
    hev1] at hm1
  rw [hd1, hm1, addULong_nat hwrap]
  exact ⟨rfl, rfl, hen1⟩

/-- C19 at a concrete input: event `B` (duration `250`), registered and polled
at reading `0`, then polled at `50`. -/
theorem C19_poll_at_zero_does_not_latch_witness :
    (1 < demoWorld.timerEvents.numberOfEvents ∧ unshared 1 demoWorld ∧
      (demoWorld.mem (demoWorld.timerEvents.events 1)).isEnabled = true ∧
      (demoWorld.mem (demoWorld.timerEvents.events 1)).firstCalled = 0) ∧
    ((tasks 0 demoWorld).mem (demoWorld.timerEvents.events 1)).firstCalled = 0 ∧
    (tasks 0 demoWorld).timerEvents.durations 1 = 250 ∧
    (polls [0, 50] demoWorld).timerEvents.durations 1 = 50 + 250 ∧
    ((polls [0, 50] demoWorld).mem (demoWorld.timerEvents.events 1)).firstCalled = 50 :=
  ⟨by decide,
    (C19_poll_at_zero_does_not_latch demoWorld 1 250 50 (by decide) (by decide) (by decide)
      (by decide) (by decide) (by decide) (by decide)).1,
    (C19_poll_at_zero_does_not_latch demoWorld 1 250 50 (by decide) (by decide) (by decide)
      (by decide) (by decide) (by decide) (by decide)).2.2.1,
    ((C19_poll_at_zero_does_not_latch demoWorld 1 250 50 (by decide) (by decide) (by decide)
      (by decide) (by decide) (by decide) (by decide)).2.2.2.2.2 (by decide)).1,
    ((C19_poll_at_zero_does_not_latch demoWorld 1 250 50 (by decide) (by decide) (by decide)
      (by decide) (by decide) (by decide) (by decide)).2.2.2.2.2 (by decide)).2.1⟩

end TimerEvents
